import Mathlib

/-!
Verification of the FCS (Flow Cytometry Standard) decoder (package `fcs`,
file `decoder.go`) against its natural-language specification.

The Go source is shallowly embedded: byte streams become `List Char`
(TEXT/header) or `List ℕ` (DATA bytes), Go `int` becomes `ℤ`, `float64`
becomes `ℚ`, maps become association lists with map-style overwrite, and
fallible functions return explicit result types.  A Go function that can
panic returns `GoResult`.  Leaf calls into the Go standard library whose
exact numeric/calendar behavior is irrelevant to the claims
(`strconv.ParseFloat`, the `time` package parsers/arithmetic,
`math.Pow(10, ·)`, IEEE float decoding in `encoding/binary`) are abstracted
as fields of a `Stdlib` record threaded through the definitions; everything
else is translated directly from `decoder.go`.
-/

namespace Fcs

/-- Outcome of a Go function call: a normal return, or a runtime panic. -/
inductive GoResult (α : Type) where
  | ret (val : α)
  | panicked (msg : String)
deriving DecidableEq

/-- The `error` values produced by the decoder (`decoder.go`).  Each
constructor corresponds to one `errors.New` / `fmt.Errorf` site. -/
inductive FcsError where
  | invalidHeader                     -- ErrInvalidHeader
  | invalidText                       -- ErrInvalidText
  | ioEOF                             -- an io.EOF surfaced directly (line 291-294)
  | copyShort                         -- io.CopyN ran out of input in DecodeMetadata
  | bytesLeftText (n : ℕ)             -- "%d bytes left after decoding TEXT segment ..."
  | cannotParseInt (v : String)       -- "cannot parse '%s' as int"
  | cannotParseFloat (v : String)     -- "cannot parse '%s' as float64"
  | cannotParsePair (v : String)      -- "cannot parse '%s' as [2]float64"
  | cannotParseTime (v : String)      -- "cannot parse %s as time.Time"
  | missingByteOrder                  -- "required parameter $BYTEORD not found"
  | unknownByteOrder (v : String)     -- "unknown byte order %s"
  | missingKeyword (kw : String)      -- "missing required keyword %s"
  | modeNotList                       -- "only list mode is supported as data mode"
  | asciiUnsupported                  -- "ASCII data type is deprecated in FCS 3.1 ..."
  | unknownDataType (v : String)      -- "unknown data type: %s"
  | binaryReadShort                   -- binary.Read hit ErrUnexpectedEOF
  | bigEndianIntUnsupported           -- "currently only little endian is implemented"
  | unsupportedBitWidth               -- "%d-bit data is not yet supported"
  | notEnoughBytes                    -- "not enough bytes read"
deriving DecidableEq

/-- A Go `time.Time` restricted to the calendar components the decoder
manipulates (`time.Date(year, month, day, hh, mm, ss, ns, loc)`; the
location is always UTC or the date's location and plays no role in the
comparisons the code performs). -/
structure GoTime where
  year : ℤ
  month : ℤ
  day : ℤ
  hour : ℤ
  minute : ℤ
  second : ℤ
  nanosecond : ℤ
deriving DecidableEq

/-- The zero `time.Time` (January 1, year 1, 00:00:00 UTC). -/
def GoTime.zero : GoTime := ⟨1, 1, 1, 0, 0, 0, 0⟩

/-- `Time.IsZero`. -/
def GoTime.isZero (t : GoTime) : Bool := t = GoTime.zero

/-- `time.Date(d.Year, d.Month, d.Day, t.Hour, t.Minute, t.Second,
t.Nanosecond, d.Location)` as used at lines 444 and 447. -/
def GoTime.combine (d t : GoTime) : GoTime :=
  ⟨d.year, d.month, d.day, t.hour, t.minute, t.second, t.nanosecond⟩

/-- `a.Before b` for two times produced by `GoTime.combine` from the same
date (chronological order = lexicographic component order). -/
def GoTime.before (a b : GoTime) : Bool :=
  if a.year ≠ b.year then a.year < b.year
  else if a.month ≠ b.month then a.month < b.month
  else if a.day ≠ b.day then a.day < b.day
  else if a.hour ≠ b.hour then a.hour < b.hour
  else if a.minute ≠ b.minute then a.minute < b.minute
  else if a.second ≠ b.second then a.second < b.second
  else a.nanosecond < b.nanosecond

/-- Abstracted Go standard-library leaves.  Everything the decoder calls
whose internal behavior the claims do not depend on: `strconv.ParseFloat`,
the `time`-format parsing block of `scanValueToStructField` (lines
526-580 try several formats in order; only success/failure and the
resulting value matter to the decoder's control flow), `t.AddDate(0,0,1)`
(calendar day increment), `math.Pow(10, x)`, and IEEE-754 decoding of
float64/float32 from bytes in a given byte order. -/
structure Stdlib where
  parseFloat : String → Option ℚ
  tryParseTime : String → Option GoTime
  addOneDay : GoTime → GoTime
  pow10 : ℚ → ℚ
  f64FromBytes : String → List ℕ → ℚ
  f32FromBytes : String → List ℕ → ℚ

/-- A concrete (arbitrary) `Stdlib` instance, used to evaluate the model
on inputs that never reach the abstracted leaves. -/
def stdDummy : Stdlib :=
  ⟨fun _ => none, fun _ => none, fun t => t, fun _ => 0, fun _ _ => 0, fun _ _ => 0⟩

/-- `struct Parameter` of `decoder.go` (metadata of one parameter). -/
structure Parameter where
  ParameterID : ℤ
  BitLength : ℤ                       -- $PnB
  AmplificationType : ℚ × ℚ          -- $PnE
  ShortName : String                  -- $PnN
  Range : ℤ                           -- $PnR
  Name : String                       -- $PnS
  AmplifierGain : Option ℚ            -- $PnG
  DetectorType : String               -- $PnT
  DetectorVoltage : Option ℚ          -- $PnV
  OpticalFilter : String              -- $PnF
  DetectorName : String
  Low : Option ℚ                      -- PnLO
  High : Option ℚ                     -- PnHI
deriving DecidableEq

/-- The Go zero value of `Parameter` (as allocated at line 396). -/
def zeroParameter : Parameter :=
  ⟨0, 0, (0, 0), "", 0, "", none, "", none, "", "", none, none⟩

/-- `struct Metadata` of `decoder.go`. -/
structure Metadata where
  FCSVersion : String
  BeginSupplementalText : ℤ           -- $BEGINSTEXT
  EndSupplementalText : ℤ             -- $ENDSTEXT
  BeginData : ℤ                       -- $BEGINDATA
  EndData : ℤ                         -- $ENDDATA
  BeginAnalysis : ℤ                   -- $BEGINANALYSIS
  EndAnalysis : ℤ                     -- $ENDANALYSIS
  NextData : ℤ                        -- $NEXTDATA
  ByteOrder : String                  -- $BYTEORD
  DataType : String                   -- $DATATYPE
  Mode : String                       -- $MODE
  NumEvents : ℤ                       -- $TOT
  NumParameters : ℤ                   -- $PAR
  Parameters : List Parameter
  FileName : String                   -- $FIL
  Operator : String                   -- $OP
  PlateID : String                    -- $PLATEID,PLATE_ID,PLATE ID
  PlateName : String                  -- $PLATENAME,PLATE NAME,SAMPLE_NAME
  WellID : String                     -- $WELLID,WELL ID,WELL_ID
  Date : GoTime                       -- $DATE
  BeginTime : GoTime                  -- $BTIM
  EndTime : GoTime                    -- $ETIM
  ComputerSystem : String             -- $SYS
  CytometerType : String              -- $CYT
  CytometerSN : String                -- $CYTSN,CYTNUM
  TimeStep : Option ℚ                 -- $TIMESTEP
  Volume : Option ℚ                   -- $VOL
  SpecimenSource : String             -- $SRC
  SpecimenLabel : String              -- $SMNO
  SpecimenType : String               -- $CELLS
  NumLostEvent : ℤ                    -- $LOST
  NumAbortedEvent : ℤ                 -- $ABRT
  Originality : String                -- $ORIGINALITY
  Institution : String                -- $INST
  Comment : String                    -- $COM
  ExperimentInitiator : String        -- $EXP
  Software : String                   -- SOFTWARE,CREATOR
  ExperimentName : String             -- EXPERIMENT_NAME,EXPERIMENT NAME
  ExperimentID : String               -- SF_EXPERIMENT_UID
  TubeName : String                   -- TUBE_NAME,TUBE NAME
  FlowRate : Option ℚ                 -- #FLOWRATE
  delimiter : Char
  keywords : List String
  kv : List (String × String)
deriving DecidableEq

/-- The `Metadata` constructed at line 296: all typed fields at their Go
zero values, with the given delimiter and empty keyword list / dictionary. -/
def initMetadata (d : Char) : Metadata where
  FCSVersion := ""
  BeginSupplementalText := 0
  EndSupplementalText := 0
  BeginData := 0
  EndData := 0
  BeginAnalysis := 0
  EndAnalysis := 0
  NextData := 0
  ByteOrder := ""
  DataType := ""
  Mode := ""
  NumEvents := 0
  NumParameters := 0
  Parameters := []
  FileName := ""
  Operator := ""
  PlateID := ""
  PlateName := ""
  WellID := ""
  Date := GoTime.zero
  BeginTime := GoTime.zero
  EndTime := GoTime.zero
  ComputerSystem := ""
  CytometerType := ""
  CytometerSN := ""
  TimeStep := none
  Volume := none
  SpecimenSource := ""
  SpecimenLabel := ""
  SpecimenType := ""
  NumLostEvent := 0
  NumAbortedEvent := 0
  Originality := ""
  Institution := ""
  Comment := ""
  ExperimentInitiator := ""
  Software := ""
  ExperimentName := ""
  ExperimentID := ""
  TubeName := ""
  FlowRate := none
  delimiter := d
  keywords := []
  kv := []

/-! ## String and dictionary utilities -/

/-- `unicode.IsSpace` restricted to the code points `strings.TrimSpace`
and `bytes.TrimSpace` trim (Latin-1 range): space, \t, \n, \v, \f, \r,
U+0085, U+00A0. -/
def isGoSpace (c : Char) : Bool :=
  c = ' ' || c = '\t' || c = '\n' || c = Char.ofNat 11 || c = Char.ofNat 12 ||
  c = '\r' || c = Char.ofNat 133 || c = Char.ofNat 160

/-- `strings.TrimSpace` on a character list. -/
def trimChars (l : List Char) : List Char :=
  ((l.dropWhile isGoSpace).reverse.dropWhile isGoSpace).reverse

/-- `strings.TrimSpace`. -/
def trimGo (s : String) : String := ⟨trimChars s.data⟩

/-- Decimal digit run evaluation for `strconv.Atoi`. -/
def digitsVal : List Char → ℕ → Option ℕ
  | [], acc => some acc
  | c :: rest, acc =>
    if c.isDigit then digitsVal rest (acc * 10 + (c.toNat - '0'.toNat)) else none

/-- Magnitude-and-range step of `strconv.Atoi` (64-bit `int`): a nonempty
all-digit run, with the signed result required to fit in int64 (on
overflow `Atoi` returns a non-nil error, which every caller in
`decoder.go` treats as a parse failure). -/
def atoiCore (ds : List Char) (sign : ℤ) : Option ℤ :=
  match ds with
  | [] => none
  | _ =>
    match digitsVal ds 0 with
    | none => none
    | some n =>
      let v : ℤ := sign * n
      if -(2 ^ 63) ≤ v ∧ v ≤ 2 ^ 63 - 1 then some v else none

/-- `strconv.Atoi`: optional sign followed by decimal digits. -/
def atoiGo (s : String) : Option ℤ :=
  match s.data with
  | '+' :: ds => atoiCore ds 1
  | '-' :: ds => atoiCore ds (-1)
  | ds => atoiCore ds 1

/-- `strings.Split(s, ",")` on a character list. -/
def splitCommaChars : List Char → List (List Char)
  | [] => [[]]
  | c :: rest =>
    if c = ',' then [] :: splitCommaChars rest
    else
      match splitCommaChars rest with
      | [] => [[c]]
      | l :: ls => (c :: l) :: ls

/-- `strings.Split(s, ",")`. -/
def splitComma (s : String) : List String := (splitCommaChars s.data).map fun l => ⟨l⟩

/-- Assignment `kv[k] = v` into the model of the Go `map[string]string`
(overwrite on an existing key, append otherwise). -/
def kvSet : List (String × String) → String → String → List (String × String)
  | [], k, v => [(k, v)]
  | (k', v') :: rest, k, v =>
    if k' = k then (k, v) :: rest else (k', v') :: kvSet rest k v

/-- Lookup `kv[k]` with its `ok` flag folded into `Option`. -/
def kvLookup : List (String × String) → String → Option String
  | [], _ => none
  | (k', v') :: rest, k => if k' = k then some v' else kvLookup rest k

/-- Go map read `kv[k]` without the `ok` flag: a missing key yields `""`. -/
def kvGetD (kv : List (String × String)) (k : String) : String :=
  (kvLookup kv k).getD ""

/-! ## TEXT segment scanner (decodeText lines 288-367) -/

/-- `bufio.Reader.ReadString(delim)`: returns the bytes read up to and
including the delimiter, the rest of the stream, and whether the
delimiter was found (`false` models the `io.EOF` case, in which all
remaining bytes have been consumed). -/
def readString (d : Char) : List Char → List Char × List Char × Bool
  | [] => ([], [], false)
  | c :: rest =>
    if c = d then ([c], rest, true)
    else
      let r := readString d rest
      (c :: r.1, r.2.1, r.2.2)

/-- The value-reading loop of `decodeText` (lines 313-342): repeatedly
read up to the next delimiter; a following byte equal to the delimiter is
an escape (keep reading), EOF right after a delimiter ends the value, any
other byte is un-read and ends the value; EOF before a delimiter is
`ErrInvalidText`.  The fuel argument only bounds the recursion; every
iteration consumes at least one character, so the fuel supplied by
`scanLoop` can never run out. -/
def readValue (d : Char) : ℕ → List Char → List Char → Except FcsError (List Char × List Char)
  | 0, _, _ => .error .invalidText
  | fuel + 1, s, acc =>
    let r := readString d s
    if r.2.2 then
      let acc1 := acc ++ r.1
      match r.2.1 with
      | [] => .ok (acc1, [])
      | c :: s2 => if c = d then readValue d fuel s2 acc1 else .ok (acc1, c :: s2)
    else .error .invalidText

/-- The keyword/value scan loop of `decodeText` (lines 304-359).  On EOF
while reading a keyword the loop breaks (a trailing partial keyword is
dropped); both keyword and value must end in the delimiter, which is
stripped; `strings.ToUpper(keyword)` at line 355 discards its result, so
the keyword is stored in its original case; the value is stored trimmed.
The fuel only bounds the recursion: every iteration consumes at least two
characters, so `input.length + 1` can never run out. -/
def scanLoop (d : Char) : ℕ → List Char → List String → List (String × String) →
    Except FcsError (List String × List (String × String))
  | 0, _, kws, kv => .ok (kws, kv)
  | fuel + 1, s, kws, kv =>
    let r := readString d s
    if r.2.2 then
      match readValue d (r.2.1.length + 1) r.2.1 [] with
      | .error e => .error e
      | .ok (val, s2) =>
        if r.1.getLast? = some d ∧ val.getLast? = some d then
          let kwStr : String := ⟨r.1.dropLast⟩
          let vStr : String := trimGo ⟨val.dropLast⟩
          scanLoop d fuel s2 (kws ++ [kwStr]) (kvSet kv kwStr vStr)
        else .error .invalidText
    else .ok (kws, kv)

/-- The whole scan of a TEXT segment body (everything after the leading
delimiter byte): the scan loop with enough fuel for any input. -/
def scanText (d : Char) (body : List Char) :
    Except FcsError (List String × List (String × String)) :=
  scanLoop d (body.length + 1) body [] []

/-- Encoding of one keyword/value pair in a TEXT segment. -/
def encodePair (d : Char) (p : List Char × List Char) : List Char :=
  p.1 ++ [d] ++ p.2 ++ [d]

/-- Encoding of a list of keyword/value pairs. -/
def encodePairs (d : Char) : List (List Char × List Char) → List Char
  | [] => []
  | p :: ps => encodePair d p ++ encodePairs d ps

/-- Well-formed pair list for a delimiter: keywords nonempty, and neither
keywords nor values contain the delimiter. -/
def goodPairs (d : Char) (ps : List (List Char × List Char)) : Prop :=
  ∀ p ∈ ps, p.1 ≠ [] ∧ d ∉ p.1 ∧ d ∉ p.2

/-- The keyword list a scan of well-formed pairs appends. -/
def pairKeywords (ps : List (List Char × List Char)) : List String :=
  ps.map fun p => (⟨p.1⟩ : String)

/-- The dictionary a scan of well-formed pairs builds (values trimmed). -/
def pairKv (kv : List (String × String)) (ps : List (List Char × List Char)) :
    List (String × String) :=
  ps.foldl (fun acc p => kvSet acc ⟨p.1⟩ (trimGo ⟨p.2⟩)) kv

/-! ## Metadata schema (decodeText lines 369-474, scanValueToStructField) -/

/-- One row of the field table: the candidate keywords of a `Metadata`
struct field (its `keyword:"..."` tag split on commas) together with the
typed parse-and-assign action of `scanValueToStructField` for that
field's type. -/
structure FieldSpec where
  keys : List String
  app : Stdlib → String → Metadata → Except FcsError Metadata

/-- `scanValueToStructField` on a string field. -/
def appString (set : String → Metadata → Metadata) :
    Stdlib → String → Metadata → Except FcsError Metadata :=
  fun _ v m => .ok (set v m)

/-- `scanValueToStructField` on an int field: `"NA"` is accepted and
leaves the field unset; otherwise `strconv.Atoi`. -/
def appInt (set : ℤ → Metadata → Metadata) :
    Stdlib → String → Metadata → Except FcsError Metadata :=
  fun _ v m =>
    if v = "NA" then .ok m
    else
      match atoiGo v with
      | some n => .ok (set n m)
      | none => .error (.cannotParseInt v)

/-- `scanValueToStructField` on a `*float64` field: `"NA"` is accepted
and leaves the field unset; otherwise `strconv.ParseFloat`. -/
def appOptFloat (set : ℚ → Metadata → Metadata) :
    Stdlib → String → Metadata → Except FcsError Metadata :=
  fun std v m =>
    if v = "NA" then .ok m
    else
      match std.parseFloat v with
      | some x => .ok (set x m)
      | none => .error (.cannotParseFloat v)

/-- `scanValueToStructField` on a `time.Time` field (lines 526-580): the
multi-format parse attempt is abstracted by `Stdlib.tryParseTime`; a
value no format accepts is a parse error. -/
def appTime (set : GoTime → Metadata → Metadata) :
    Stdlib → String → Metadata → Except FcsError Metadata :=
  fun std v m =>
    match std.tryParseTime v with
    | some t => .ok (set t m)
    | none => .error (.cannotParseTime v)

/-- The field table of `struct Metadata` (one row per field carrying a
`keyword:` tag, in struct-declaration order), interpreted by the
reflection loop at lines 370-391. -/
def fieldSpecs : List FieldSpec := [
  ⟨["$BEGINSTEXT"], appInt fun n m => {m with BeginSupplementalText := n}⟩,
  ⟨["$ENDSTEXT"], appInt fun n m => {m with EndSupplementalText := n}⟩,
  ⟨["$BEGINDATA"], appInt fun n m => {m with BeginData := n}⟩,
  ⟨["$ENDDATA"], appInt fun n m => {m with EndData := n}⟩,
  ⟨["$BEGINANALYSIS"], appInt fun n m => {m with BeginAnalysis := n}⟩,
  ⟨["$ENDANALYSIS"], appInt fun n m => {m with EndAnalysis := n}⟩,
  ⟨["$NEXTDATA"], appInt fun n m => {m with NextData := n}⟩,
  ⟨["$BYTEORD"], appString fun v m => {m with ByteOrder := v}⟩,
  ⟨["$DATATYPE"], appString fun v m => {m with DataType := v}⟩,
  ⟨["$MODE"], appString fun v m => {m with Mode := v}⟩,
  ⟨["$TOT"], appInt fun n m => {m with NumEvents := n}⟩,
  ⟨["$PAR"], appInt fun n m => {m with NumParameters := n}⟩,
  ⟨["$FIL"], appString fun v m => {m with FileName := v}⟩,
  ⟨["$OP"], appString fun v m => {m with Operator := v}⟩,
  ⟨["$PLATEID", "PLATE_ID", "PLATE ID"], appString fun v m => {m with PlateID := v}⟩,
  ⟨["$PLATENAME", "PLATE NAME", "SAMPLE_NAME"], appString fun v m => {m with PlateName := v}⟩,
  ⟨["$WELLID", "WELL ID", "WELL_ID"], appString fun v m => {m with WellID := v}⟩,
  ⟨["$DATE"], appTime fun t m => {m with Date := t}⟩,
  ⟨["$BTIM"], appTime fun t m => {m with BeginTime := t}⟩,
  ⟨["$ETIM"], appTime fun t m => {m with EndTime := t}⟩,
  ⟨["$SYS"], appString fun v m => {m with ComputerSystem := v}⟩,
  ⟨["$CYT"], appString fun v m => {m with CytometerType := v}⟩,
  ⟨["$CYTSN", "CYTNUM"], appString fun v m => {m with CytometerSN := v}⟩,
  ⟨["$TIMESTEP"], appOptFloat fun x m => {m with TimeStep := some x}⟩,
  ⟨["$VOL"], appOptFloat fun x m => {m with Volume := some x}⟩,
  ⟨["$SRC"], appString fun v m => {m with SpecimenSource := v}⟩,
  ⟨["$SMNO"], appString fun v m => {m with SpecimenLabel := v}⟩,
  ⟨["$CELLS"], appString fun v m => {m with SpecimenType := v}⟩,
  ⟨["$LOST"], appInt fun n m => {m with NumLostEvent := n}⟩,
  ⟨["$ABRT"], appInt fun n m => {m with NumAbortedEvent := n}⟩,
  ⟨["$ORIGINALITY"], appString fun v m => {m with Originality := v}⟩,
  ⟨["$INST"], appString fun v m => {m with Institution := v}⟩,
  ⟨["$COM"], appString fun v m => {m with Comment := v}⟩,
  ⟨["$EXP"], appString fun v m => {m with ExperimentInitiator := v}⟩,
  ⟨["SOFTWARE", "CREATOR"], appString fun v m => {m with Software := v}⟩,
  ⟨["EXPERIMENT_NAME", "EXPERIMENT NAME"], appString fun v m => {m with ExperimentName := v}⟩,
  ⟨["SF_EXPERIMENT_UID"], appString fun v m => {m with ExperimentID := v}⟩,
  ⟨["TUBE_NAME", "TUBE NAME"], appString fun v m => {m with TubeName := v}⟩,
  ⟨["#FLOWRATE"], appOptFloat fun x m => {m with FlowRate := some x}⟩]

/-- The synonym scan at lines 378-383: candidate keywords are tried in
order and the first present key wins; if none is present the value is the
empty string (a missing Go map read yields `""`). -/
def lookupSyn (kv : List (String × String)) : List String → String
  | [] => ""
  | k :: rest =>
    match kvLookup kv k with
    | some v => v
    | none => lookupSyn kv rest

/-- The reflection loop over `Metadata` fields (lines 370-391): for each
tagged field, resolve the synonyms; a nonempty value is parsed and
assigned, and a parse failure returns the metadata built so far together
with the error (line 387). -/
def applyFieldTable (std : Stdlib) (kv : List (String × String)) :
    List FieldSpec → Metadata → Except (Metadata × FcsError) Metadata
  | [], m => .ok m
  | spec :: rest, m =>
    let value := lookupSyn kv spec.keys
    if value ≠ "" then
      match spec.app std value m with
      | .ok m' => applyFieldTable std kv rest m'
      | .error e => .error (m, e)
    else applyFieldTable std kv rest m

/-- One row of the parameter field table: the `keyword:` tag of a
`Parameter` struct field (with `n` as the parameter-number placeholder)
and its typed parse-and-assign action. -/
structure ParamFieldSpec where
  tpl : String
  app : Stdlib → String → Parameter → Except FcsError Parameter

/-- String `Parameter` field. -/
def appPString (set : String → Parameter → Parameter) :
    Stdlib → String → Parameter → Except FcsError Parameter :=
  fun _ v p => .ok (set v p)

/-- Int `Parameter` field (same `"NA"`/`Atoi` handling as for `Metadata`). -/
def appPInt (set : ℤ → Parameter → Parameter) :
    Stdlib → String → Parameter → Except FcsError Parameter :=
  fun _ v p =>
    if v = "NA" then .ok p
    else
      match atoiGo v with
      | some n => .ok (set n p)
      | none => .error (.cannotParseInt v)

/-- `*float64` `Parameter` field. -/
def appPOptFloat (set : ℚ → Parameter → Parameter) :
    Stdlib → String → Parameter → Except FcsError Parameter :=
  fun std v p =>
    if v = "NA" then .ok p
    else
      match std.parseFloat v with
      | some x => .ok (set x p)
      | none => .error (.cannotParseFloat v)

/-- `[2]float64` `Parameter` field (lines 510-525): split on comma,
require exactly two entries, `strconv.ParseFloat` each trimmed side. -/
def appPPair (set : ℚ × ℚ → Parameter → Parameter) :
    Stdlib → String → Parameter → Except FcsError Parameter :=
  fun std v p =>
    match splitComma v with
    | [a, b] =>
      match std.parseFloat (trimGo a) with
      | none => .error (.cannotParsePair v)
      | some f1 =>
        match std.parseFloat (trimGo b) with
        | none => .error (.cannotParsePair v)
        | some f2 => .ok (set (f1, f2) p)
    | _ => .error (.cannotParsePair v)

/-- The field table of `struct Parameter` (one row per tagged field, in
struct-declaration order).  Every template contains the placeholder `n`,
so the sanity panic at line 409 is unreachable. -/
def paramFieldSpecs : List ParamFieldSpec := [
  ⟨"$PnB", appPInt fun n p => {p with BitLength := n}⟩,
  ⟨"$PnE", appPPair fun x p => {p with AmplificationType := x}⟩,
  ⟨"$PnN", appPString fun v p => {p with ShortName := v}⟩,
  ⟨"$PnR", appPInt fun n p => {p with Range := n}⟩,
  ⟨"$PnS", appPString fun v p => {p with Name := v}⟩,
  ⟨"$PnG", appPOptFloat fun x p => {p with AmplifierGain := some x}⟩,
  ⟨"$PnT", appPString fun v p => {p with DetectorType := v}⟩,
  ⟨"$PnV", appPOptFloat fun x p => {p with DetectorVoltage := some x}⟩,
  ⟨"$PnF", appPString fun v p => {p with OpticalFilter := v}⟩,
  ⟨"PnLO", appPOptFloat fun x p => {p with Low := some x}⟩,
  ⟨"PnHI", appPOptFloat fun x p => {p with High := some x}⟩]

/-- `strings.Replace(tpl, "n", num, 1)`: replace the first occurrence of
the placeholder. -/
def replaceFirstN : List Char → List Char → List Char
  | [], _ => []
  | c :: rest, num => if c = 'n' then num ++ rest else c :: replaceFirstN rest num

/-- The concrete keyword of parameter `i` for a template (line 411). -/
def paramKeyword (tpl : String) (i : ℤ) : String :=
  ⟨replaceFirstN tpl.data (toString i).data⟩

/-- The inner reflection loop over one parameter's fields (lines
402-421): an absent keyword is skipped (note: no empty-value check here,
unlike the `Metadata` loop), a present value is parsed and assigned, and
a parse failure aborts. -/
def applyParamTable (std : Stdlib) (kv : List (String × String)) (i : ℤ) :
    List ParamFieldSpec → Parameter → Except FcsError Parameter
  | [], p => .ok p
  | spec :: rest, p =>
    match kvLookup kv (paramKeyword spec.tpl i) with
    | none => applyParamTable std kv i rest p
    | some value =>
      match spec.app std value p with
      | .ok p' => applyParamTable std kv i rest p'
      | .error e => .error e

/-- The parameter-building loop (lines 395-424), counting `i` from 1 up
to `NumParameters`; an error returns the parameters appended so far. -/
def buildParametersGo (std : Stdlib) (kv : List (String × String)) :
    ℕ → ℤ → List Parameter → GoResult (Except (List Parameter × FcsError) (List Parameter))
  | 0, _, acc => .ret (.ok acc)
  | k + 1, i, acc =>
    match applyParamTable std kv i paramFieldSpecs {zeroParameter with ParameterID := i} with
    | .ok p => buildParametersGo std kv k (i + 1) (acc ++ [p])
    | .error e => .ret (.error (acc, e))

/-- Lines 393-424: `make([]Parameter, 0, m.NumParameters)` panics when
`NumParameters` is negative (a negative slice capacity); otherwise the
parameters are built in order. -/
def buildParameters (std : Stdlib) (kv : List (String × String)) (np : ℤ) :
    GoResult (Except (List Parameter × FcsError) (List Parameter)) :=
  if np < 0 then .panicked "makeslice: cap out of range"
  else buildParametersGo std kv np.toNat 1 []

/-- The `$BYTEORD` normalization (lines 428-439). -/
def byteOrderPhase (m : Metadata) : Except (Metadata × FcsError) Metadata :=
  match kvLookup m.kv "$BYTEORD" with
  | none => .error (m, .missingByteOrder)
  | some v =>
    if v = "1,2,3,4" then .ok {m with ByteOrder := "LittleEndian"}
    else if v = "4,3,2,1" then .ok {m with ByteOrder := "BigEndian"}
    else .error (m, .unknownByteOrder v)

/-- The date/time combination (lines 441-453). -/
def dateCombinePhase (std : Stdlib) (m : Metadata) : Metadata :=
  if m.Date.isZero then m
  else
    let m1 := if m.BeginTime.isZero then m
              else {m with BeginTime := GoTime.combine m.Date m.BeginTime}
    let m2 := if m1.EndTime.isZero then m1
              else {m1 with EndTime := GoTime.combine m1.Date m1.EndTime}
    if m2.EndTime.before m2.BeginTime then {m2 with EndTime := std.addOneDay m2.EndTime}
    else m2

/-- The required top-level keywords (package-level list, lines 29-42). -/
def requiredKeywords : List String :=
  ["$BYTEORD", "$DATATYPE", "$MODE", "$NEXTDATA", "$PAR", "$TOT"]

/-- The required per-parameter keyword templates (lines 46-51; the Go
source holds `fmt.Sprintf` formats `$P%dB` etc., rendered here with the
same `n` placeholder used by the field tables). -/
def requiredParameterKeywords : List String := ["$PnB", "$PnE", "$PnN", "$PnR"]

/-- First missing keyword of a list, in order (lines 458-463). -/
def firstMissing (kv : List (String × String)) : List String → Option String
  | [] => none
  | k :: rest => if (kvLookup kv k).isNone then some k else firstMissing kv rest

/-- First missing per-parameter keyword, `i` counting from 1 (lines
464-472). -/
def firstMissingParam (kv : List (String × String)) : ℕ → ℤ → Option String
  | 0, _ => none
  | k + 1, i =>
    match firstMissing kv (requiredParameterKeywords.map fun t => paramKeyword t i) with
    | some kw => some kw
    | none => firstMissingParam kv k (i + 1)

/-- The whole required-keyword validation (lines 455-472): the first
missing top-level keyword in list order, or else the first missing
per-parameter keyword. -/
def requiredCheck (m : Metadata) : Option String :=
  match firstMissing m.kv requiredKeywords with
  | some kw => some kw
  | none => firstMissingParam m.kv m.NumParameters.toNat 1

/-- `decodeText` (lines 288-475): scan the keyword/value pairs, apply the
field table, build the parameters, normalize the byte order, combine
dates and times, and validate required keywords.  Error returns mirror
the Go code: scan-phase errors return no metadata at all; later phases
return the partially populated metadata together with the error.  (The
"bytes left after decoding TEXT segment" check at lines 362-367 reads
from the raw limited reader after the buffered reader has already drained
it to reach EOF, so it never fires and contributes no branch here.) -/
def decodeText (std : Stdlib) (input : List Char) :
    GoResult (Option Metadata × Option FcsError) :=
  match input with
  | [] => .ret (none, some .ioEOF)
  | d :: rest =>
    match scanText d rest with
    | .error e => .ret (none, some e)
    | .ok (kws, kv) =>
      let m0 := {initMetadata d with keywords := kws, kv := kv}
      match applyFieldTable std kv fieldSpecs m0 with
      | .error (m, e) => .ret (some m, some e)
      | .ok m1 =>
        match buildParameters std kv m1.NumParameters with
        | .panicked s => .panicked s
        | .ret (.error (ps, e)) => .ret (some {m1 with Parameters := ps}, some e)
        | .ret (.ok ps) =>
          let m2 := {m1 with Parameters := ps}
          match byteOrderPhase m2 with
          | .error (m, e) => .ret (some m, some e)
          | .ok m3 =>
            let m4 := dateCombinePhase std m3
            match requiredCheck m4 with
            | some kw => .ret (some m4, some (.missingKeyword kw))
            | none => .ret (some m4, none)

/-! ## DATA segment decoder (decodeData, decodeIntData, applyTransform) -/

/-- Read of `data[j]` with a Go `int` index.  The Go code would panic on
an out-of-range index; every call reached from `decodeData` stays in
range, so the out-of-range value is immaterial. -/
def zGet (data : List ℚ) (j : ℤ) : ℚ :=
  if 0 ≤ j then data.getD j.toNat 0 else 0

/-- Write of `data[j] = v` with a Go `int` index (same remark as `zGet`;
`List.set` ignores an out-of-range index). -/
def zSet (data : List ℚ) (j : ℤ) (v : ℚ) : List ℚ :=
  if 0 ≤ j then data.set j.toNat v else data

/-- The per-parameter column loop of `applyTransform`
(`for j := i; j < np*ne; j += np { data[j] = f(data[j]) }`).  The fuel
only bounds the recursion; the caller supplies `tot.toNat + 1`, which
cannot run out since every iteration advances `j` by `np ≥ 1` inside
`[0, tot)` (and `np = 0` forces `tot = np*ne = 0`, so the loop body never
runs). -/
def transformLoop (f : ℚ → ℚ) (np tot : ℤ) : ℕ → ℤ → List ℚ → List ℚ
  | 0, _, data => data
  | fuel + 1, j, data =>
    if j < tot then transformLoop f np tot fuel (j + np) (zSet data j (f (zGet data j)))
    else data

/-- The body of `applyTransform` for one parameter (lines 739-765):
linear (both amplification components zero) divides by the gain when one
is present; otherwise logarithmic, treating `f2 = 0` as `f2 = 1`
(FCS 3.1 3.2.20 leniency) and mapping `v ↦ 10^(f1·v/Range) · f2`. -/
def transformParam (std : Stdlib) (np tot : ℤ) (i : ℕ) (p : Parameter)
    (data : List ℚ) : List ℚ :=
  let f1 := p.AmplificationType.1
  let f2 := p.AmplificationType.2
  if f1 = 0 ∧ f2 = 0 then
    match p.AmplifierGain with
    | none => data
    | some gain => transformLoop (fun v => v / gain) np tot (tot.toNat + 1) (i : ℤ) data
  else
    let f2 := if f2 = 0 then 1 else f2
    let r : ℚ := (p.Range : ℚ)
    transformLoop (fun v => std.pow10 (f1 * v / r) * f2) np tot (tot.toNat + 1) (i : ℤ) data

/-- The parameter loop of `applyTransform` (`for i, p := range
m.Parameters`). -/
def transformGo (std : Stdlib) (np tot : ℤ) : List Parameter → ℕ → List ℚ → List ℚ
  | [], _, data => data
  | p :: ps, i, data => transformGo std np tot ps (i + 1) (transformParam std np tot i p data)

/-- `applyTransform` (lines 735-768; its Go error result is always nil). -/
def applyTransform (std : Stdlib) (m : Metadata) (data : List ℚ) : List ℚ :=
  transformGo std m.NumParameters (m.NumParameters * m.NumEvents) m.Parameters 0 data

/-- Little-endian unsigned integer value of a byte list (the
`*(*uintN)(unsafe.Pointer(...))` reads at lines 701-719, valid on the
little-endian hardware the code targets). -/
def leVal : List ℕ → ℕ
  | [] => 0
  | b :: rest => b + 256 * leVal rest

/-- The inner event loop of `decodeIntData` for one parameter: for
`j = 0..ne-1`, write the `w`-byte little-endian value at buffer offset
`off + j*eventBytes` into `data[i + j*np]`. -/
def colWrite (buf : List ℕ) (np eventBytes w off i : ℕ) : ℕ → List ℚ → List ℚ
  | 0, data => data
  | j + 1, data =>
    (colWrite buf np eventBytes w off i j data).set (i + j * np)
      ((leVal ((buf.drop (off + j * eventBytes)).take w) : ℚ))

/-- The outer parameter loop of the pointer walk (lines 693-728),
threading the parameter index and the running buffer offset; widths
outside {1,2,4,8} bytes would hit the defensive panic at line 724. -/
def intWalk (buf : List ℕ) (np ne eventBytes : ℕ) :
    List ℕ → ℕ → ℕ → List ℚ → GoResult (List ℚ)
  | [], _, _, data => .ret data
  | w :: ws, i, off, data =>
    if w = 1 ∨ w = 2 ∨ w = 4 ∨ w = 8 then
      intWalk buf np ne eventBytes ws (i + 1) (off + w)
        (colWrite buf np eventBytes w off i ne data)
    else .panicked "bit size should not exist in this loop"

/-- The width-collection loop of `decodeIntData` (lines 658-671): for
`i = 0..np-1` read `Parameters[i].BitLength` (panicking like Go if the
slice is shorter than `np`), require it in {8,16,32,64}, and accumulate
`paramBits`, `paramBytes` and the event record length. -/
def buildParamWidths : List Parameter → ℕ → GoResult (Except FcsError (List ℕ × List ℕ × ℕ))
  | _, 0 => .ret (.ok ([], [], 0))
  | [], _ + 1 => .panicked "index out of range"
  | p :: rest, k + 1 =>
    let n := p.BitLength
    if n = 8 ∨ n = 16 ∨ n = 32 ∨ n = 64 then
      match buildParamWidths rest k with
      | .panicked s => .panicked s
      | .ret (.error e) => .ret (.error e)
      | .ret (.ok (bits, bytes, evb)) =>
        .ret (.ok (n.toNat :: bits, n.toNat / 8 :: bytes, n.toNat / 8 + evb))
    else .ret (.error .unsupportedBitWidth)

/-- The byte width of a parameter (`BitLength / 8`, for the widths the
integer decoder accepts). -/
def byteWidth (q : Parameter) : ℕ := q.BitLength.toNat / 8

/-- The event record length: the sum of all parameters' byte widths. -/
def eventBytesOf (m : Metadata) : ℕ := (m.Parameters.map byteWidth).sum

/-- The byte offset of parameter `p` inside one event record: the sum of
the byte widths of the parameters before it. -/
def paramOffset (m : Metadata) (p : ℕ) : ℕ :=
  ((m.Parameters.take p).map byteWidth).sum

/-- `decodeIntData` up to (but not including) the `applyTransform` call
(lines 649-728): byte-order restriction, width collection, the
`ne*eventBytes`-byte read, and the pointer walk.  The boolean records
whether execution reached the point where `applyTransform` is invoked
(the empty-buffer early return at lines 685-688 skips it). -/
def decodeIntRaw (r : List ℕ) (m : Metadata) (data : List ℚ) :
    GoResult (List ℚ × Option FcsError × Bool) :=
  if m.ByteOrder ≠ "LittleEndian" then .ret (data, some .bigEndianIntUnsupported, false)
  else if m.NumParameters < 0 then
    -- paramBits := make([]int, np) at line 658 panics on a negative length
    -- (unreachable through the pipeline: a negative $PAR already panics in
    -- decodeText, but modeled for fidelity).
    .panicked "makeslice: len out of range"
  else
    match buildParamWidths m.Parameters m.NumParameters.toNat with
    | .panicked s => .panicked s
    | .ret (.error e) => .ret (data, some e, false)
    | .ret (.ok (_, paramBytes, eventBytes)) =>
      let need := m.NumEvents * (eventBytes : ℤ)
      if need < 0 then .panicked "makeslice: len out of range"
      else if (r.length : ℤ) < need then .ret (data, some .notEnoughBytes, false)
      else
        let buf := r.take need.toNat
        if buf.length = 0 then .ret (data, none, false)
        else
          match intWalk buf m.NumParameters.toNat m.NumEvents.toNat eventBytes
              paramBytes 0 0 data with
          | .panicked s => .panicked s
          | .ret d => .ret (d, none, true)

/-- `decodeIntData` (lines 649-732): the raw walk followed by
`applyTransform`. -/
def decodeIntData (std : Stdlib) (r : List ℕ) (m : Metadata) (data : List ℚ) :
    GoResult (List ℚ × Option FcsError) :=
  match decodeIntRaw r m data with
  | .panicked s => .panicked s
  | .ret (d, e, false) => .ret (d, e)
  | .ret (d, some e, true) => .ret (d, some e)
  | .ret (d, none, true) => .ret (applyTransform std m d, none)

/-- `binary.Read` of `count` float64 values (`$DATATYPE = "D"`),
abstracted through `Stdlib.f64FromBytes`. -/
def readF64s (std : Stdlib) (bo : String) (r : List ℕ) (count : ℕ) : List ℚ :=
  (List.range count).map fun i => std.f64FromBytes bo ((r.drop (8 * i)).take 8)

/-- `binary.Read` of `count` float32 values widened to float64
(`$DATATYPE = "F"`), abstracted through `Stdlib.f32FromBytes`. -/
def readF32s (std : Stdlib) (bo : String) (r : List ℕ) (count : ℕ) : List ℚ :=
  (List.range count).map fun i => std.f32FromBytes bo ((r.drop (4 * i)).take 4)

/-- `decodeData` (lines 590-647).  Mirrors the Go result pair `(data,
err)`.  The deferred block at lines 594-605 constructs the
trailing-bytes and multiple-datasets errors, but assigns them to a local
`err` introduced by `n, err := io.Copy(...)` that shadows the named
return value, so it never alters the returned error; its only effect is
to drain the reader, which does not influence the result. -/
def decodeData (std : Stdlib) (r : List ℕ) (m : Metadata) :
    GoResult (Option (List ℚ) × Option FcsError) :=
  if kvGetD m.kv "$MODE" ≠ "L" then .ret (none, some .modeNotList)
  else
    let np := m.NumParameters
    let ne := m.NumEvents
    if np * ne < 0 then .panicked "makeslice: len out of range"
    else
      let data : List ℚ := List.replicate (np * ne).toNat 0
      if data.length = 0 then .ret (some data, none)
      else if m.ByteOrder ≠ "LittleEndian" ∧ m.ByteOrder ≠ "BigEndian" then
        .panicked ("metadata parser gives unknown byte order " ++ m.ByteOrder)
      else
        let dt := kvGetD m.kv "$DATATYPE"
        if dt = "A" then .ret (none, some .asciiUnsupported)
        else if dt = "D" then
          if (r.length : ℤ) < 8 * (np * ne) then .ret (some data, some .binaryReadShort)
          else .ret (some (readF64s std m.ByteOrder r (np * ne).toNat), none)
        else if dt = "F" then
          if (r.length : ℤ) < 4 * (np * ne) then .ret (none, some .binaryReadShort)
          else .ret (some (readF32s std m.ByteOrder r (np * ne).toNat), none)
        else if dt = "I" then
          match decodeIntData std r m data with
          | .panicked s => .panicked s
          | .ret (d, e) => .ret (some d, e)
        else .ret (none, some (.unknownDataType dt))

/-! ## Header decoder and Decoder (decodeHeader, DecodeMetadata) -/

/-- `struct header` of `decoder.go`. -/
structure Header where
  FCSVersion : String
  TextStart : ℤ
  TextEnd : ℤ
  DataStart : ℤ
  DataEnd : ℤ
  AnalysisStart : ℤ
  AnalysisEnd : ℤ
deriving DecidableEq

/-- The offset-field loop of `decodeHeader` (lines 262-275): read `k`
8-byte fields, each parsed with `strconv.Atoi(bytes.TrimSpace(...))`;
returns the parsed values (or `none` on a short read or parse failure),
the number of bytes consumed, and the rest of the stream. -/
def readOffsets : ℕ → List Char → Option (List ℤ) × ℕ × List Char
  | 0, s => (some [], 0, s)
  | k + 1, s =>
    let taken := s.take 8
    if taken.length ≠ 8 then (none, taken.length, s.drop 8)
    else
      match atoiGo (trimGo ⟨taken⟩) with
      | none => (none, 8, s.drop 8)
      | some v =>
        match readOffsets k (s.drop 8) with
        | (none, n, rest) => (none, 8 + n, rest)
        | (some vs, n, rest) => (some (v :: vs), 8 + n, rest)

/-- `decodeHeader` (lines 219-285): 6-byte version tag (one of FCS2.0 /
FCS3.0 / FCS3.1), 4 spaces, then six 8-byte right-justified decimal
offsets; returns the header (or `none` plus `ErrInvalidHeader`) and the
number of bytes consumed. -/
def decodeHeader (s : List Char) : Option Header × ℕ × Option FcsError :=
  let ver := s.take 6
  if ver.length ≠ 6 then (none, ver.length, some .invalidHeader)
  else
    let verS : String := ⟨ver⟩
    if verS ≠ "FCS2.0" ∧ verS ≠ "FCS3.0" ∧ verS ≠ "FCS3.1" then
      (none, 6, some .invalidHeader)
    else
      let s1 := s.drop 6
      let sp := s1.take 4
      if sp.length ≠ 4 then (none, 6 + sp.length, some .invalidHeader)
      else if ¬ sp.all (· = ' ') then (none, 10, some .invalidHeader)
      else
        match readOffsets 6 (s1.drop 4) with
        | (none, n, _) => (none, 10 + n, some .invalidHeader)
        | (some vs, n, _) =>
          match vs with
          | [a, b, c, d2, e, f] => (some ⟨verS, a, b, c, d2, e, f⟩, 10 + n, none)
          | _ => (none, 10 + n, some .invalidHeader)

/-- `struct Decoder`: the stream (remaining input) and the two cached
pointers. -/
structure Decoder where
  r : List Char
  header : Option Header
  metadata : Option Metadata
deriving DecidableEq

/-- `NewDecoder`. -/
def newDecoder (s : List Char) : Decoder := ⟨s, none, none⟩

/-- The body of `DecodeMetadata` after the memoization guard (lines
172-195): decode the header, skip to the start of the TEXT segment,
decode the limited TEXT segment, and fill in the FCS version (only on
success — line 188 returns before the version is filled).  The decoder's
`header` field is assigned; its `metadata` field is never assigned.  The
stream position after the TEXT segment is `drop` of the segment length:
the buffered reader drains the limited reader to reach EOF (and its
read-ahead covers the segment on early error returns as well). -/
def decodeMetadataBody (std : Stdlib) (dec : Decoder) :
    GoResult (Decoder × (Option Metadata × Option FcsError)) :=
  match decodeHeader dec.r with
  | (none, n, e) => .ret ({dec with r := dec.r.drop n}, (none, e))
  | (some h, n, _) =>
    let dec1 : Decoder := {dec with r := dec.r.drop n, header := some h}
    let skip := h.TextStart - (n : ℤ)
    if (dec1.r.length : ℤ) < skip then .ret ({dec1 with r := []}, (none, some .copyShort))
    else
      let dec2 : Decoder := {dec1 with r := dec1.r.drop skip.toNat}
      let textLen := h.TextEnd - h.TextStart + 1
      let lim := textLen.toNat
      let seg := dec2.r.take lim
      let dec3 : Decoder := {dec2 with r := dec2.r.drop lim}
      match decodeText std seg with
      | .panicked msg => .panicked msg
      | .ret (none, e) => .ret (dec3, (none, e))
      | .ret (some m, some e) => .ret (dec3, (some m, some e))
      | .ret (some m, none) =>
        .ret (dec3, (some {m with FCSVersion := h.FCSVersion}, none))

/-- `DecodeMetadata` (lines 167-196): return the cached metadata if the
`metadata` field is set, otherwise run the body. -/
def decodeMetadata (std : Stdlib) (dec : Decoder) :
    GoResult (Decoder × (Option Metadata × Option FcsError)) :=
  match dec.metadata with
  | some m => .ret (dec, (some m, none))
  | none => decodeMetadataBody std dec

/-- A concrete well-formed FCS stream: a 58-byte header (TEXT segment at
offsets 58..121) followed by a 64-byte TEXT segment holding all required
keywords with zero parameters and zero events. -/
def c10stream : List Char :=
  ("FCS3.1" ++ "    " ++ "      58" ++ "     121" ++ "       0" ++ "       0" ++
    "       0" ++ "       0" ++
    "/$BYTEORD/1,2,3,4/$DATATYPE/I/$MODE/L/$NEXTDATA/0/$PAR/0/$TOT/0/").data

/-- The decoder state after a successful `DecodeMetadata` on
`c10stream`: stream exhausted, header cached, metadata still not
cached. -/
def c10dec : Decoder := ⟨[], some ⟨"FCS3.1", 58, 121, 0, 0, 0, 0⟩, none⟩

/-- The metadata decoded from `c10stream`. -/
def c10meta : Metadata :=
  { initMetadata '/' with
      FCSVersion := "FCS3.1", ByteOrder := "LittleEndian", DataType := "I",
      Mode := "L",
      keywords := ["$BYTEORD", "$DATATYPE", "$MODE", "$NEXTDATA", "$PAR", "$TOT"],
      kv := [("$BYTEORD", "1,2,3,4"), ("$DATATYPE", "I"), ("$MODE", "L"),
        ("$NEXTDATA", "0"), ("$PAR", "0"), ("$TOT", "0")] }

/-- A concrete TEXT segment body holding five required keywords but not
`$TOT`. -/
def c7body : List Char := "$BYTEORD/1,2,3,4/$DATATYPE/I/$MODE/L/$NEXTDATA/7/$PAR/0/".data

/-- The keyword list scanned from `c7body`. -/
def c7kws : List String := ["$BYTEORD", "$DATATYPE", "$MODE", "$NEXTDATA", "$PAR"]

/-- The dictionary scanned from `c7body`. -/
def c7kv : List (String × String) :=
  [("$BYTEORD", "1,2,3,4"), ("$DATATYPE", "I"), ("$MODE", "L"), ("$NEXTDATA", "7"),
   ("$PAR", "0")]

/-- The metadata after the field table has been applied to `c7kv`. -/
def c7m1 : Metadata :=
  { initMetadata '/' with keywords := c7kws, kv := c7kv, NextData := 7, ByteOrder := "1,2,3,4", DataType := "I", Mode := "L", NumParameters := 0 }

/-- The metadata after byte-order normalization. -/
def c7m3 : Metadata := { c7m1 with ByteOrder := "LittleEndian" }

/-! ## Result projections (observations used by the theorems) -/

/-- The metadata component of a `decodeText` result. -/
def textMeta : GoResult (Option Metadata × Option FcsError) → Option Metadata
  | .ret (m, _) => m
  | .panicked _ => none

/-- The error component of a `decodeText` result (`none` also on panic,
distinguishing nothing: panics are observed via `decodeText ... =
.panicked _` directly). -/
def textErr : GoResult (Option Metadata × Option FcsError) → Option FcsError
  | .ret (_, e) => e
  | .panicked _ => none

/-- The dictionary entry for `k` in the metadata returned by a
`decodeText` result, when a metadata record was returned at all. -/
def scannedValue (res : GoResult (Option Metadata × Option FcsError)) (k : String) :
    Option String :=
  match res with
  | .ret (some m, _) => kvLookup m.kv k
  | _ => none

/-- The ordered keyword list of the metadata returned by a `decodeText`
result, when a metadata record was returned at all. -/
def textKeywords : GoResult (Option Metadata × Option FcsError) → Option (List String)
  | .ret (some m, _) => some m.keywords
  | _ => none

/-- The matrix component of a `decodeData` result. -/
def dataMat : GoResult (Option (List ℚ) × Option FcsError) → Option (List ℚ)
  | .ret (d, _) => d
  | .panicked _ => none

/-- A concrete metadata record used to exercise the integer decoder: two
little-endian integer parameters of widths 8 and 16 bits, two events. -/
def c8meta : Metadata :=
  { initMetadata '/' with
      NumParameters := 2, NumEvents := 2, ByteOrder := "LittleEndian",
      Parameters := [{ zeroParameter with BitLength := 8 },
        { zeroParameter with BitLength := 16 }] }

/-- The entry at index `k` of the matrix produced by a fully successful
raw integer decode (`decodeIntRaw` returning no error and reaching the
transform point); `none` on any failure, panic, or early return. -/
def intRawMatrixAt (res : GoResult (List ℚ × Option FcsError × Bool)) (k : ℕ) :
    Option ℚ :=
  match res with
  | .ret (d, none, true) => d[k]?
  | _ => none

/-- The error component of a `decodeData` result. -/
def dataErr : GoResult (Option (List ℚ) × Option FcsError) → Option FcsError
  | .ret (_, e) => e
  | .panicked _ => none

/-! # Theorems

## Scanner lemmas -/

theorem readString_no_delim {d : Char} {a : List Char} (h : d ∉ a) :
    readString d a = (a, [], false) := by
  induction a with
  | nil => rfl
  | cons c rest ih =>
    simp only [List.mem_cons, not_or] at h
    have hc : ¬ (c = d) := fun hh => h.1 hh.symm
    simp [readString, hc, ih h.2]

theorem readString_found {d : Char} {k : List Char} (t : List Char) (h : d ∉ k) :
    readString d (k ++ d :: t) = (k ++ [d], t, true) := by
  induction k with
  | nil => simp [readString]
  | cons c rest ih =>
    simp only [List.mem_cons, not_or] at h
    have hc : ¬ (c = d) := fun hh => h.1 hh.symm
    simp [readString, hc, ih h.2]

/-- Shape condition on the stream following a value: empty, or starting
with a non-delimiter byte (the first byte of the next keyword). -/
def restOk (d : Char) (rest : List Char) : Prop :=
  rest = [] ∨ ∃ c t, rest = c :: t ∧ c ≠ d

theorem readValue_plain {d : Char} {v rest : List Char} (hv : d ∉ v)
    (hrest : restOk d rest) (fuel : ℕ) (acc : List Char) :
    readValue d (fuel + 1) (v ++ d :: rest) acc = .ok (acc ++ (v ++ [d]), rest) := by
  rw [readValue, readString_found rest hv]
  rcases hrest with rfl | ⟨c, t, rfl, hc⟩
  · rfl
  · simp [hc]

theorem readValue_escaped {d : Char} {a b rest : List Char} (ha : d ∉ a) (hb : d ∉ b)
    (hrest : restOk d rest) (fuel : ℕ) (acc : List Char) :
    readValue d (fuel + 2) (a ++ d :: d :: (b ++ d :: rest)) acc =
      .ok ((acc ++ (a ++ [d])) ++ (b ++ [d]), rest) := by
  rw [show fuel + 2 = (fuel + 1) + 1 from rfl, readValue,
    readString_found (d :: (b ++ d :: rest)) ha]
  simp only [if_pos rfl]
  rw [readValue_plain hb hrest fuel]
  simp

theorem scanLoop_nil (d : Char) (fuel : ℕ) (kws : List String)
    (kv : List (String × String)) :
    scanLoop d (fuel + 1) [] kws kv = .ok (kws, kv) := by
  rfl

/-- Scanning well-formed pairs followed by a suffix that is empty or
starts a new keyword: the pairs are consumed, appending their keywords
and storing their trimmed values. -/
theorem scanLoop_pairs {d : Char} {ps : List (List Char × List Char)}
    (hps : goodPairs d ps) {suffix : List Char} (hsuf : restOk d suffix)
    (fuel : ℕ) (kws : List String) (kv : List (String × String)) :
    scanLoop d (fuel + ps.length) (encodePairs d ps ++ suffix) kws kv =
      scanLoop d fuel suffix (kws ++ pairKeywords ps) (pairKv kv ps) := by
  induction ps generalizing fuel kws kv with
  | nil => simp [encodePairs, pairKeywords, pairKv]
  | cons p ps ih =>
    obtain ⟨hk1, hk2, hv⟩ := hps p (List.mem_cons_self p ps)
    have hps' : goodPairs d ps := fun q hq => hps q (List.mem_cons_of_mem p hq)
    have hrest : restOk d (encodePairs d ps ++ suffix) := by
      match ps, hps' with
      | [], _ => simpa [encodePairs] using hsuf
      | q :: qs, hps' =>
        obtain ⟨hq1, hq2, _⟩ := hps' q (List.mem_cons_self q qs)
        obtain ⟨c, k', hck⟩ := List.exists_cons_of_ne_nil hq1
        have hcd : c ≠ d := by
          intro hcd
          exact hq2 (by rw [hck, hcd]; exact List.mem_cons_self d k')
        refine Or.inr ⟨c, k' ++ d :: (q.2 ++ d :: (encodePairs d qs ++ suffix)), ?_, hcd⟩
        simp [encodePairs, encodePair, hck]
    have henc : encodePairs d (p :: ps) ++ suffix =
        p.1 ++ d :: (p.2 ++ d :: (encodePairs d ps ++ suffix)) := by
      simp [encodePairs, encodePair]
    rw [show fuel + (p :: ps).length = (fuel + ps.length) + 1 by
      simp [List.length_cons]; ring]
    rw [scanLoop, henc, readString_found _ hk2]
    simp only
    rw [readValue_plain hv hrest _ []]
    simp only [List.nil_append, List.getLast?_concat, and_self, if_pos, List.dropLast_concat]
    rw [ih hps' fuel (kws ++ [(⟨p.1⟩ : String)]) (kvSet kv ⟨p.1⟩ (trimGo ⟨p.2⟩))]
    simp [pairKeywords, pairKv]

theorem encodePairs_length_ge {d : Char} (ps : List (List Char × List Char)) :
    ps.length ≤ (encodePairs d ps).length := by
  induction ps with
  | nil => simp [encodePairs]
  | cons p ps ih => simp [encodePairs, encodePair]; omega

/-- A TEXT body consisting exactly of well-formed pairs scans to their
keywords and trimmed dictionary. -/
theorem scanText_pairs {d : Char} {ps : List (List Char × List Char)}
    (hps : goodPairs d ps) :
    scanText d (encodePairs d ps) = .ok (pairKeywords ps, pairKv [] ps) := by
  unfold scanText
  have hlen : ps.length ≤ (encodePairs d ps).length := encodePairs_length_ge ps
  obtain ⟨f, hf⟩ : ∃ f, (encodePairs d ps).length + 1 = (f + 1) + ps.length :=
    ⟨(encodePairs d ps).length - ps.length, by omega⟩
  rw [hf, show encodePairs d ps = encodePairs d ps ++ [] by simp,
    scanLoop_pairs hps (Or.inl rfl), scanLoop_nil]
  simp

/-- One scan iteration over a pair whose value contains an escaped
(doubled) delimiter, at the end of the segment: the stored value holds a
single literal delimiter at that position. -/
theorem scanLoop_step_escaped {d : Char} {k a b : List Char}
    (hk : d ∉ k) (ha : d ∉ a) (hb : d ∉ b) (fuel : ℕ) (kws : List String)
    (kv : List (String × String)) :
    scanLoop d (fuel + 1) (k ++ d :: (a ++ d :: d :: (b ++ d :: []))) kws kv =
      scanLoop d fuel [] (kws ++ [(⟨k⟩ : String)])
        (kvSet kv ⟨k⟩ (trimGo ⟨a ++ d :: b⟩)) := by
  rw [scanLoop, readString_found _ hk]
  simp only
  have hfx : (a ++ d :: d :: (b ++ d :: [])).length + 1 =
      (a.length + b.length + 2) + 2 := by simp; omega
  rw [hfx, readValue_escaped ha hb (Or.inl rfl)]
  have h1 : ([] ++ (a ++ [d])) ++ (b ++ [d]) = (a ++ d :: b) ++ [d] := by simp
  rw [h1]
  simp only [List.getLast?_concat, and_self, if_pos, List.dropLast_concat]

/-- Claim C6: a value containing two consecutive delimiter bytes is
un-escaped to exactly one literal delimiter character in the stored
value. -/
theorem C6_escaped_delimiter_unescapes (d : Char) (k a b : List Char)
    (hk : d ∉ k) (ha : d ∉ a) (hb : d ∉ b) :
    scanText d (k ++ [d] ++ a ++ [d, d] ++ b ++ [d]) =
      .ok ([(⟨k⟩ : String)], [((⟨k⟩ : String), trimGo ⟨a ++ [d] ++ b⟩)]) := by
  have hbody : k ++ [d] ++ a ++ [d, d] ++ b ++ [d] =
      k ++ d :: (a ++ d :: d :: (b ++ d :: [])) := by simp
  unfold scanText
  rw [hbody]
  obtain ⟨n, hn⟩ : ∃ n, (k ++ d :: (a ++ d :: d :: (b ++ d :: []))).length = n + 1 :=
    ⟨(k ++ d :: (a ++ d :: d :: (b ++ d :: []))).length - 1, by simp; omega⟩
  rw [hn, scanLoop_step_escaped hk ha hb]
  obtain ⟨m, hm⟩ : ∃ m, n = m + 1 := by
    refine ⟨n - 1, ?_⟩
    have : 3 ≤ n := by simp at hn; omega
    omega
  rw [hm, scanLoop_nil]
  simp [kvSet]

theorem readValue_no_delim {d : Char} {s : List Char} (h : d ∉ s) (fuel : ℕ)
    (acc : List Char) :
    readValue d (fuel + 1) s acc = .error .invalidText := by
  rw [readValue, readString_no_delim h]
  simp

/-! ## C1: trailing DATA bytes and nonzero NextData (deferred error shadowed) -/

/-- Claim C1 (code bug): `decodeData` is supposed to return the decoded
matrix together with a trailing-bytes error when the declared DATA range
holds more bytes than consumed, and a multiple-datasets error when
`NextData` is nonzero.  The deferred check at lines 594-605 builds those
errors into a local `err` that shadows the named return value
(`n, err := io.Copy(...)`), so the caller receives a nil error in both
situations: here a 1-parameter, 1-event, 8-bit integer decode with one
trailing byte, and one with `NextData = 1`, both return the matrix with
no error. -/
theorem C1_deferred_errors_swallowed :
    (decodeData stdDummy [5, 99] {initMetadata '/' with
        NumParameters := 1, NumEvents := 1, ByteOrder := "LittleEndian",
        Parameters := [{zeroParameter with BitLength := 8}],
        kv := [("$MODE", "L"), ("$DATATYPE", "I")]} = .ret (some [5], none)) ∧
    (decodeData stdDummy [5] {initMetadata '/' with
        NumParameters := 1, NumEvents := 1, ByteOrder := "LittleEndian",
        NextData := 1,
        Parameters := [{zeroParameter with BitLength := 8}],
        kv := [("$MODE", "L"), ("$DATATYPE", "I")]} = .ret (some [5], none)) := by
  constructor <;> rfl

/-! ## C2: keyword upper-case normalization (discarded ToUpper result) -/

/-- Claim C2 (code bug): keywords are supposed to be normalized to upper
case before being stored, but `strings.ToUpper(keyword)` at line 355
discards its result, so a lower-case keyword is stored and looked up in
its original case: scanning `/$par/3/` stores the keyword `"$par"`, the
upper-case key `"$PAR"` is absent from the dictionary, and the ordered
keyword list holds `"$par"`. -/
theorem C2_keyword_not_uppercased :
    textKeywords (decodeText stdDummy ("/$par/3/").data) = some ["$par"] ∧
    scannedValue (decodeText stdDummy ("/$par/3/").data) "$par" = some "3" ∧
    scannedValue (decodeText stdDummy ("/$par/3/").data) "$PAR" = none := by
  refine ⟨rfl, rfl, rfl⟩

/-! ## C3: truncation of the TEXT segment -/

/-- Counterexample to claim C3 as stated: a TEXT segment that ends
mid-keyword (trailing partial keyword `AB` after six complete pairs) does
not fail with `InvalidText`; the scan breaks on EOF, silently discards
the partial keyword, and the decode succeeds with no error at all. -/
theorem C3_cex_partial_keyword_silently_dropped :
    textErr (decodeText stdDummy
      ("/$BYTEORD/1,2,3,4/$DATATYPE/I/$MODE/L/$NEXTDATA/0/$PAR/0/$TOT/0/AB").data) = none ∧
    (textMeta (decodeText stdDummy
      ("/$BYTEORD/1,2,3,4/$DATATYPE/I/$MODE/L/$NEXTDATA/0/$PAR/0/$TOT/0/AB").data)).isSome
      = true := by
  refine ⟨rfl, rfl⟩

/-- Claim C3, amended: a TEXT segment whose stream ends mid-value (a
keyword is terminated but the stream is exhausted before the value's
terminating delimiter) fails with `InvalidText` and no metadata; a
truncation mid-keyword, by contrast, silently ends the scan (see the
counterexample).  The truncated pair may follow any number of well-formed
pairs. -/
theorem C3_mid_value_truncation_invalid_text (std : Stdlib) (d : Char)
    (ps : List (List Char × List Char)) (k a : List Char)
    (hps : goodPairs d ps) (hk : d ∉ k) (hknil : k ≠ []) (ha : d ∉ a) :
    decodeText std (d :: (encodePairs d ps ++ (k ++ d :: a))) =
      .ret (none, some .invalidText) := by
  rw [decodeText]
  have hsuf : restOk d (k ++ d :: a) := by
    obtain ⟨c, k', rfl⟩ := List.exists_cons_of_ne_nil hknil
    have hcd : c ≠ d := fun h => hk (h ▸ List.mem_cons_self c k')
    exact Or.inr ⟨c, _, rfl, hcd⟩
  have hlen : ps.length ≤ (encodePairs d ps).length := encodePairs_length_ge ps
  obtain ⟨f, hf⟩ : ∃ f, (encodePairs d ps ++ (k ++ d :: a)).length + 1 =
      (f + 1) + ps.length := ⟨(encodePairs d ps ++ (k ++ d :: a)).length - ps.length, by
        simp only [List.length_append]; omega⟩
  rw [scanText, hf, scanLoop_pairs hps hsuf]
  rw [scanLoop, readString_found a hk]
  simp only
  rw [readValue_no_delim ha]
  simp

/-- Witness for the amended C3 theorem at a concrete truncated input. -/
theorem C3_amended_witness :
    decodeText stdDummy ('/' :: (encodePairs '/' [] ++ ("$TOT".data ++ '/' :: "12".data))) =
      .ret (none, some .invalidText) :=
  C3_mid_value_truncation_invalid_text stdDummy '/' [] "$TOT".data "12".data
    (by intro p hp; cases hp) (by decide) (by decide) (by decide)

/-! ## C4: `$DATATYPE = "A"` handling -/

/-- Counterexample to claim C4 as stated: with `$DATATYPE = "A"` but
`$MODE = "H"`, `decodeData` fails with the list-mode error, not the
unsupported-ASCII error — the ASCII rejection is not independent of the
other fields. -/
theorem C4_cex_mode_checked_first :
    dataErr (decodeData stdDummy [] {initMetadata '/' with
      NumParameters := 1, NumEvents := 1, ByteOrder := "LittleEndian",
      kv := [("$MODE", "H"), ("$DATATYPE", "A")]}) = some .modeNotList ∧
    dataErr (decodeData stdDummy [] {initMetadata '/' with
      NumParameters := 1, NumEvents := 1, ByteOrder := "LittleEndian",
      kv := [("$MODE", "H"), ("$DATATYPE", "A")]}) ≠ some .asciiUnsupported := by
  refine ⟨rfl, by decide⟩

/-- Claim C4, amended: whenever `$MODE` is `"L"`, the matrix size
`NumParameters * NumEvents` is positive, and the byte order is one of the
two normalized values, `$DATATYPE = "A"` fails with the unsupported-ASCII
error. -/
theorem C4_ascii_rejected (std : Stdlib) (r : List ℕ) (m : Metadata)
    (hmode : kvGetD m.kv "$MODE" = "L")
    (hdt : kvGetD m.kv "$DATATYPE" = "A")
    (hpos : 0 < m.NumParameters * m.NumEvents)
    (hbo : m.ByteOrder = "LittleEndian" ∨ m.ByteOrder = "BigEndian") :
    decodeData std r m = .ret (none, some .asciiUnsupported) := by
  unfold decodeData
  rw [hmode, hdt]
  have h1 : ¬ m.NumParameters * m.NumEvents < 0 := by omega
  have h2 : ¬ (List.replicate (m.NumParameters * m.NumEvents).toNat (0 : ℚ)).length = 0 := by
    simp only [List.length_replicate]
    omega
  have h3 : ¬ (m.ByteOrder ≠ "LittleEndian" ∧ m.ByteOrder ≠ "BigEndian") := by
    rcases hbo with h | h <;> simp [h]
  simp [h1, h2, h3, hpos]

/-- Witness for the amended C4 theorem. -/
theorem C4_ascii_rejected_witness :
    decodeData stdDummy [] {initMetadata '/' with
      NumParameters := 1, NumEvents := 1, ByteOrder := "LittleEndian",
      kv := [("$MODE", "L"), ("$DATATYPE", "A")]} = .ret (none, some .asciiUnsupported) :=
  C4_ascii_rejected stdDummy [] _ (by decide) (by decide) (by decide) (by decide)

/-! ## C9: negative sizes panic on slice allocation -/

/-- Claim C9 (implicit): a TEXT segment whose `$PAR` value parses as a
negative integer makes `decodeText` panic at
`make([]Parameter, 0, m.NumParameters)` (negative capacity) instead of
returning an error; and a metadata record in list mode whose
`NumParameters * NumEvents` is negative makes `decodeData` panic at
`make([]float64, np*ne)` (negative length).  Equivalently, absence of
these panics requires `NumParameters ≥ 0` and
`NumParameters * NumEvents ≥ 0`. -/
theorem C9_negative_sizes_panic :
    (∀ (std : Stdlib) (s : String) (n : ℤ), atoiGo s = some n → n < 0 →
      (∀ c ∈ s.data, c ≠ '/') → trimGo s = s →
      decodeText std ('/' :: encodePairs '/' [("$PAR".data, s.data)]) =
        .panicked "makeslice: cap out of range") ∧
    (∀ (std : Stdlib) (r : List ℕ) (m : Metadata), kvGetD m.kv "$MODE" = "L" →
      m.NumParameters * m.NumEvents < 0 →
      decodeData std r m = .panicked "makeslice: len out of range") := by
  constructor
  · intro std s n hatoi hneg hchars htrim
    have hs0 : s ≠ "" := by
      intro h
      have h0 : atoiGo "" = none := rfl
      rw [h, h0] at hatoi
      exact Option.noConfusion hatoi
    have hsNA : s ≠ "NA" := by
      intro h
      have h0 : atoiGo "NA" = none := rfl
      rw [h, h0] at hatoi
      exact Option.noConfusion hatoi
    have hgood : goodPairs '/' [("$PAR".data, s.data)] := by
      intro p hp
      rcases List.mem_singleton.mp hp with rfl
      refine ⟨?_, ?_, ?_⟩
      · show "$PAR".data ≠ []
        decide
      · show '/' ∉ "$PAR".data
        decide
      · show '/' ∉ s.data
        intro hmem
        exact hchars '/' hmem rfl
    rw [decodeText, scanText_pairs hgood]
    have hkv : pairKv [] [("$PAR".data, s.data)] = [("$PAR", s)] := by
      show [(("$PAR" : String), trimGo s)] = [("$PAR", s)]
      rw [htrim]
    have hkws : pairKeywords [("$PAR".data, s.data)] = ["$PAR"] := rfl
    rw [hkv, hkws]
    have hfield : applyFieldTable std [("$PAR", s)] fieldSpecs { initMetadata '/' with keywords := ["$PAR"], kv := [("$PAR", s)] } = .ok { initMetadata '/' with keywords := ["$PAR"], kv := [("$PAR", s)], NumParameters := n } := by
      simp [applyFieldTable, fieldSpecs, lookupSyn, kvLookup, appInt, appString,
        appOptFloat, appTime, hs0, hsNA, hatoi]
    simp only [hfield]
    have hbuild : buildParameters std [("$PAR", s)] n = .panicked "makeslice: cap out of range" := by
      rw [buildParameters, if_pos hneg]
    simp only [hbuild]
  · intro std r m hmode hneg
    unfold decodeData
    rw [hmode]
    simp [hneg]

/-- Witness for C9 at `$PAR = "-1"` and at a concrete metadata record
with `NumParameters = 2`, `NumEvents = -1`. -/
theorem C9_negative_sizes_panic_witness :
    (decodeText stdDummy ('/' :: encodePairs '/' [("$PAR".data, "-1".data)]) =
      .panicked "makeslice: cap out of range") ∧
    (decodeData stdDummy [] {initMetadata '/' with
      NumParameters := 2, NumEvents := -1, kv := [("$MODE", "L")]} =
      .panicked "makeslice: len out of range") :=
  ⟨C9_negative_sizes_panic.1 stdDummy "-1" (-1) (by decide) (by decide) (by decide)
      (by decide),
   C9_negative_sizes_panic.2 stdDummy [] _ (by decide) (by decide)⟩

/-- Witness for C6: the value `a//b` (delimiter `/`) is stored as `a/b`. -/
theorem C6_escaped_delimiter_witness :
    scanText '/' ("K".data ++ ['/'] ++ "a".data ++ ['/', '/'] ++ "b".data ++ ['/']) =
      .ok (["K"], [("K", "a/b")]) :=
  C6_escaped_delimiter_unescapes '/' "K".data "a".data "b".data
    (by decide) (by decide) (by decide)

/-! ## C7: missing required keyword -/

/-- Every typed parse-and-assign action in the `Metadata` field table
writes only its typed field: the raw keyword list and dictionary of the
metadata are untouched by a successful application. -/
theorem fieldSpecs_preserve_raw :
    ∀ spec ∈ fieldSpecs, ∀ (std : Stdlib) (v : String) (m m2 : Metadata),
      spec.app std v m = .ok m2 → m2.kv = m.kv ∧ m2.keywords = m.keywords := by
  intro spec hmem std v m m2 h
  simp only [fieldSpecs, List.mem_cons, List.not_mem_nil, or_false] at hmem
  rcases hmem with rfl | rfl | rfl | rfl | rfl | rfl | rfl | rfl | rfl | rfl | rfl | rfl | rfl | rfl | rfl | rfl | rfl | rfl | rfl | rfl | rfl | rfl | rfl | rfl | rfl | rfl | rfl | rfl | rfl | rfl | rfl | rfl | rfl | rfl | rfl | rfl | rfl | rfl | rfl
  all_goals simp only [appString, appInt, appOptFloat, appTime] at h
  all_goals repeat' split at h
  all_goals cases h
  all_goals exact ⟨rfl, rfl⟩

/-- A successful pass of the reflection loop over the `Metadata` field
table preserves the raw keyword list and dictionary. -/
theorem applyFieldTable_preserves_raw (std : Stdlib) (kv : List (String × String)) :
    ∀ (specs : List FieldSpec),
      (∀ spec ∈ specs, ∀ (std2 : Stdlib) (v : String) (m m2 : Metadata),
        spec.app std2 v m = .ok m2 → m2.kv = m.kv ∧ m2.keywords = m.keywords) →
      ∀ (m m2 : Metadata), applyFieldTable std kv specs m = .ok m2 →
        m2.kv = m.kv ∧ m2.keywords = m.keywords := by
  intro specs
  induction specs with
  | nil =>
    intro _ m m2 h
    cases h
    exact ⟨rfl, rfl⟩
  | cons spec rest ih =>
    intro hall m m2 h
    rw [applyFieldTable] at h
    split at h
    · split at h
      · next m1 heq =>
        have h1 := hall spec (List.mem_cons_self spec rest) std _ m m1 heq
        have h2 := ih (fun q hq => hall q (List.mem_cons_of_mem spec hq)) m1 m2 h
        exact ⟨h2.1.trans h1.1, h2.2.trans h1.2⟩
      · exact Except.noConfusion h
    · exact ih (fun q hq => hall q (List.mem_cons_of_mem spec hq)) m m2 h

/-- The `$BYTEORD` normalization writes only the `ByteOrder` field. -/
theorem byteOrderPhase_preserves_raw (m m2 : Metadata)
    (h : byteOrderPhase m = .ok m2) : m2.kv = m.kv ∧ m2.keywords = m.keywords := by
  rw [byteOrderPhase] at h
  repeat' split at h
  all_goals cases h
  all_goals exact ⟨rfl, rfl⟩

/-- The date/time combination writes only the time fields. -/
theorem dateCombinePhase_preserves_raw (std : Stdlib) (m : Metadata) :
    (dateCombinePhase std m).kv = m.kv ∧
    (dateCombinePhase std m).keywords = m.keywords := by
  rw [dateCombinePhase]
  dsimp only
  repeat' split
  all_goals exact ⟨rfl, rfl⟩

/-- Counterexample to claim C7 as stated: the delimiter-`'/'` TEXT
segment mapping `$PAR` to `-2` scans without structural error, its
dictionary lacks the required keyword `$TOT` (and the other required
keywords), yet `decodeText` does not return a metadata record with a
missing-keyword error — it panics at the parameter-slice allocation,
because the negative `$PAR` value is processed before the
required-keyword validation is reached. -/
theorem C7_cex_clean_scan_missing_keyword_panics :
    scanText '/' ("$PAR/-2/").data = .ok (["$PAR"], [("$PAR", "-2")]) ∧
    kvLookup [("$PAR", "-2")] "$TOT" = none ∧
    decodeText stdDummy ("/$PAR/-2/").data = .panicked "makeslice: cap out of range" :=
  ⟨rfl, rfl, rfl⟩

/-- Claim C7, amended: for every TEXT segment whose scan succeeds and
whose decode reaches the required-keyword validation — the field table
applies without parse error, the parameter list builds without error or
panic (in particular `$PAR` is nonnegative), and `$BYTEORD` is present
with a normalized value — a missing required keyword (top-level or
per-parameter) makes `decodeText` return the partially populated
metadata, with its raw keyword list and dictionary intact, together with
the error naming the first missing keyword; it does not panic and the
metadata is not nil.  (The original unconditional form is false: phases
that run before the validation can preempt it, as the counterexample's
panic on a negative `$PAR` shows.) -/
theorem C7_missing_keyword_partial_metadata (std : Stdlib) (d : Char)
    (body : List Char) (kws : List String) (kv : List (String × String))
    (m1 m3 : Metadata) (ps : List Parameter) (kw : String)
    (hscan : scanText d body = .ok (kws, kv))
    (hfield : applyFieldTable std kv fieldSpecs
      {initMetadata d with keywords := kws, kv := kv} = .ok m1)
    (hbuild : buildParameters std kv m1.NumParameters = .ret (.ok ps))
    (hbo : byteOrderPhase {m1 with Parameters := ps} = .ok m3)
    (hmiss : requiredCheck (dateCombinePhase std m3) = some kw) :
    decodeText std (d :: body) =
      .ret (some (dateCombinePhase std m3), some (.missingKeyword kw)) ∧
    (dateCombinePhase std m3).kv = kv ∧
    (dateCombinePhase std m3).keywords = kws := by
  refine ⟨?_, ?_, ?_⟩
  · rw [decodeText, hscan]
    dsimp only
    rw [hfield]
    dsimp only
    rw [hbuild]
    dsimp only
    rw [hbo]
    dsimp only
    rw [hmiss]
  · exact ((dateCombinePhase_preserves_raw std m3).1.trans
      ((byteOrderPhase_preserves_raw _ _ hbo).1.trans
        (applyFieldTable_preserves_raw std kv fieldSpecs fieldSpecs_preserve_raw
          _ _ hfield).1))
  · exact ((dateCombinePhase_preserves_raw std m3).2.trans
      ((byteOrderPhase_preserves_raw _ _ hbo).2.trans
        (applyFieldTable_preserves_raw std kv fieldSpecs fieldSpecs_preserve_raw
          _ _ hfield).2))

/-- Witness for the amended C7: the concrete segment `c7body` (all
required keywords except `$TOT`, `$NEXTDATA = 7`) yields the partially
populated metadata `c7m3` plus the `$TOT`-missing error. -/
theorem C7_missing_keyword_partial_metadata_witness :
    decodeText stdDummy ('/' :: c7body) =
      .ret (some (dateCombinePhase stdDummy c7m3),
        some (.missingKeyword "$TOT")) ∧
    (dateCombinePhase stdDummy c7m3).kv = c7kv ∧
    (dateCombinePhase stdDummy c7m3).keywords = c7kws :=
  C7_missing_keyword_partial_metadata stdDummy '/' c7body c7kws c7kv c7m1 c7m3 []
    "$TOT" rfl rfl rfl rfl rfl

/-! ## C5: the amplification transform -/

theorem zSet_length (d : List ℚ) (j : ℤ) (v : ℚ) : (zSet d j v).length = d.length := by
  rw [zSet]
  split <;> simp

theorem zSet_get_ne (d : List ℚ) (j : ℤ) (v : ℚ) (k : ℕ) (h : (k : ℤ) ≠ j) :
    (zSet d j v)[k]? = d[k]? := by
  rw [zSet]
  split
  · next hj =>
    apply List.getElem?_set_ne
    intro hk
    apply h
    omega
  · rfl

theorem zSet_get_eq (d : List ℚ) (k : ℕ) (v : ℚ) (h : k < d.length) :
    (zSet d (k : ℤ) v)[k]? = some v := by
  rw [zSet, if_pos (Int.natCast_nonneg k)]
  rw [Int.toNat_natCast]
  exact List.getElem?_set_self h

theorem zGet_natCast (d : List ℚ) (k : ℕ) : zGet d (k : ℤ) = d.getD k 0 := by
  rw [zGet, if_pos (Int.natCast_nonneg k), Int.toNat_natCast]

theorem transformLoop_length (f : ℚ → ℚ) (np tot : ℤ) :
    ∀ (fuel : ℕ) (j : ℤ) (d : List ℚ),
      (transformLoop f np tot fuel j d).length = d.length := by
  intro fuel
  induction fuel with
  | zero => intro j d; rfl
  | succ n ih =>
    intro j d
    rw [transformLoop]
    split
    · rw [ih, zSet_length]
    · rfl

theorem transformLoop_get_lo (f : ℚ → ℚ) (np tot : ℤ) (hnp : 1 ≤ np) :
    ∀ (fuel : ℕ) (j : ℤ) (d : List ℚ) (k : ℕ), (k : ℤ) < j →
      (transformLoop f np tot fuel j d)[k]? = d[k]? := by
  intro fuel
  induction fuel with
  | zero => intro j d k _; rfl
  | succ n ih =>
    intro j d k hk
    rw [transformLoop]
    split
    · rw [ih (j + np) _ k (by omega), zSet_get_ne _ _ _ _ (by omega)]
    · rfl

theorem transformLoop_get_ne (f : ℚ → ℚ) (np tot : ℤ) (hnp : 1 ≤ np) :
    ∀ (fuel : ℕ) (j : ℤ) (d : List ℚ) (k : ℕ), 0 ≤ j →
      (¬ ∃ t : ℕ, (k : ℤ) = j + t * np ∧ (k : ℤ) < tot) →
      (transformLoop f np tot fuel j d)[k]? = d[k]? := by
  intro fuel
  induction fuel with
  | zero => intro j d k _ _; rfl
  | succ n ih =>
    intro j d k hj h
    rw [transformLoop]
    split
    · next hjtot =>
      have hkj : (k : ℤ) ≠ j := by
        intro he
        exact h ⟨0, by omega, by omega⟩
      rw [ih (j + np) _ k (by omega) ?_, zSet_get_ne _ _ _ _ hkj]
      rintro ⟨t, ht, htot⟩
      apply h
      refine ⟨t + 1, ?_, htot⟩
      rw [ht]
      push_cast
      ring
    · rfl

theorem transformLoop_get_hit (f : ℚ → ℚ) (np tot : ℤ) (hnp : 1 ≤ np) :
    ∀ (fuel t : ℕ) (j : ℤ) (d : List ℚ) (k : ℕ), 0 ≤ j → t < fuel →
      (k : ℤ) = j + t * np → (k : ℤ) < tot → k < d.length →
      (transformLoop f np tot fuel j d)[k]? = some (f (d.getD k 0)) := by
  intro fuel
  induction fuel with
  | zero => intro t j d k _ ht _ _ _; omega
  | succ n ih =>
    intro t j d k hj ht hk hktot hklen
    have htnp : 0 ≤ (t : ℤ) * np := mul_nonneg (by positivity) (by omega)
    have hjtot : j < tot := by omega
    rw [transformLoop, if_pos hjtot]
    cases t with
    | zero =>
      have hkj : (k : ℤ) = j := by omega
      rw [transformLoop_get_lo f np tot hnp n _ _ k (by omega)]
      rw [← hkj, zSet_get_eq _ _ _ hklen, zGet_natCast]
    | succ u =>
      have hne : (k : ℤ) ≠ j := by
        have : 1 * np ≤ ((u : ℤ) + 1) * np :=
          mul_le_mul_of_nonneg_right (by omega) (by omega)
        push_cast at hk
        omega
      have hgd : (zSet d j (f (zGet d j))).getD k 0 = d.getD k 0 := by
        rw [List.getD_eq_getElem?_getD, List.getD_eq_getElem?_getD,
          zSet_get_ne _ _ _ _ hne]
      rw [ih u (j + np) _ k (by omega) (by omega) ?_ hktot ?_, hgd]
      · push_cast at hk ⊢
        rw [hk]
        ring
      · rw [zSet_length]
        exact hklen

theorem transformParam_length (std : Stdlib) (np tot : ℤ) (i : ℕ) (p : Parameter)
    (d : List ℚ) : (transformParam std np tot i p d).length = d.length := by
  rw [transformParam]
  split
  · cases p.AmplifierGain
    · rfl
    · exact transformLoop_length _ _ _ _ _ _
  · exact transformLoop_length _ _ _ _ _ _

theorem transformParam_get_ne (std : Stdlib) (np tot : ℤ) (hnp : 1 ≤ np) (i : ℕ)
    (p : Parameter) (d : List ℚ) (k : ℕ)
    (h : ¬ ∃ t : ℕ, (k : ℤ) = (i : ℤ) + t * np ∧ (k : ℤ) < tot) :
    (transformParam std np tot i p d)[k]? = d[k]? := by
  rw [transformParam]
  split
  · cases p.AmplifierGain
    · rfl
    · exact transformLoop_get_ne _ _ _ hnp _ _ _ _ (by positivity) h
  · exact transformLoop_get_ne _ _ _ hnp _ _ _ _ (by positivity) h

theorem transformParam_get_log (std : Stdlib) (np tot : ℤ) (hnp : 1 ≤ np) (i : ℕ)
    (p : Parameter) (d : List ℚ) (k e : ℕ)
    (hamp : p.AmplificationType ≠ (0, 0))
    (hk : (k : ℤ) = (i : ℤ) + e * np) (hktot : (k : ℤ) < tot) (hklen : k < d.length) :
    (transformParam std np tot i p d)[k]? =
      some (std.pow10 (p.AmplificationType.1 * d.getD k 0 / (p.Range : ℚ)) *
        (if p.AmplificationType.2 = 0 then 1 else p.AmplificationType.2)) := by
  have hcond : ¬ (p.AmplificationType.1 = 0 ∧ p.AmplificationType.2 = 0) := by
    rintro ⟨h1, h2⟩
    exact hamp (Prod.ext h1 h2)
  rw [transformParam, if_neg hcond]
  have htf : e < tot.toNat + 1 := by
    have : 1 * (e : ℤ) ≤ np * e := mul_le_mul_of_nonneg_right (by omega) (by positivity)
    have h2 : (e : ℤ) * np = np * e := mul_comm _ _
    omega
  exact transformLoop_get_hit _ _ _ hnp _ e _ _ _ (by positivity) htf hk hktot hklen

theorem transformGo_length (std : Stdlib) (np tot : ℤ) :
    ∀ (ps : List Parameter) (i0 : ℕ) (d : List ℚ),
      (transformGo std np tot ps i0 d).length = d.length := by
  intro ps
  induction ps with
  | nil => intro i0 d; rfl
  | cons p ps ih =>
    intro i0 d
    rw [transformGo, ih, transformParam_length]

theorem transformGo_get_ne (std : Stdlib) (np tot : ℤ) (hnp : 1 ≤ np) :
    ∀ (ps : List Parameter) (i0 : ℕ) (d : List ℚ) (k : ℕ),
      (∀ a, a < ps.length →
        ¬ ∃ t : ℕ, (k : ℤ) = ((i0 + a : ℕ) : ℤ) + t * np ∧ (k : ℤ) < tot) →
      (transformGo std np tot ps i0 d)[k]? = d[k]? := by
  intro ps
  induction ps with
  | nil => intro i0 d k _; rfl
  | cons p ps ih =>
    intro i0 d k h
    have h1 : ∀ a, a < ps.length →
        ¬ ∃ t : ℕ, (k : ℤ) = ((i0 + 1 + a : ℕ) : ℤ) + t * np ∧ (k : ℤ) < tot := by
      intro a ha hex
      apply h (1 + a) (by simp only [List.length_cons]; omega)
      have he : i0 + (1 + a) = i0 + 1 + a := by omega
      rw [he]
      exact hex
    have h0 : ¬ ∃ t : ℕ, (k : ℤ) = (i0 : ℤ) + t * np ∧ (k : ℤ) < tot := by
      intro hex
      apply h 0 (by simp)
      obtain ⟨t, ht, htot⟩ := hex
      exact ⟨t, by rw [Nat.add_zero]; exact ht, htot⟩
    rw [transformGo, ih (i0 + 1) _ k h1, transformParam_get_ne std np tot hnp i0 p d k h0]

/-- Two distinct columns inside `[0, np)` cannot address the same matrix
cell by strides of `np`. -/
theorem col_distinct {np u v : ℤ} {e t : ℕ} (hnp : 1 ≤ np) (h1 : 0 ≤ u)
    (h12 : u < v) (h2 : v < np) (heq : u + (e : ℤ) * np = v + (t : ℤ) * np) :
    False := by
  have h3 : ((e : ℤ) - t) * np = v - u := by linear_combination heq
  have hu : 0 < (e : ℤ) - t := by
    by_contra hcon
    push_neg at hcon
    have : ((e : ℤ) - t) * np ≤ 0 := mul_nonpos_of_nonpos_of_nonneg hcon (by omega)
    omega
  have : 1 * np ≤ ((e : ℤ) - t) * np := mul_le_mul_of_nonneg_right (by omega) (by omega)
  omega

theorem transformGo_get_log (std : Stdlib) (np tot : ℤ) (hnp : 1 ≤ np) :
    ∀ (ps : List Parameter) (i0 : ℕ) (d : List ℚ) (a : ℕ) (ha : a < ps.length)
      (e k : ℕ),
      ((i0 + ps.length : ℕ) : ℤ) ≤ np →
      (ps.get ⟨a, ha⟩).AmplificationType ≠ (0, 0) →
      (k : ℤ) = ((i0 + a : ℕ) : ℤ) + e * np → (k : ℤ) < tot → k < d.length →
      (transformGo std np tot ps i0 d)[k]? =
        some (std.pow10 ((ps.get ⟨a, ha⟩).AmplificationType.1 * d.getD k 0 /
            ((ps.get ⟨a, ha⟩).Range : ℚ)) *
          (if (ps.get ⟨a, ha⟩).AmplificationType.2 = 0 then 1
           else (ps.get ⟨a, ha⟩).AmplificationType.2)) := by
  intro ps
  induction ps with
  | nil =>
    intro i0 d a ha
    exact absurd ha (by simp)
  | cons p ps ih =>
    intro i0 d a ha e k hbound hamp hk hktot hklen
    simp only [List.length_cons] at hbound
    rw [transformGo]
    cases a with
    | zero =>
      simp only [Nat.add_zero] at hk
      have hne : ∀ a', a' < ps.length →
          ¬ ∃ t : ℕ, (k : ℤ) = ((i0 + 1 + a' : ℕ) : ℤ) + t * np ∧ (k : ℤ) < tot := by
        rintro a' ha' ⟨t, ht, htot⟩
        have hv : ((i0 + 1 + a' : ℕ) : ℤ) < np := by
          push_cast at hbound ⊢
          omega
        have h12 : (i0 : ℤ) < ((i0 + 1 + a' : ℕ) : ℤ) := by push_cast; omega
        have heq : (i0 : ℤ) + (e : ℤ) * np = ((i0 + 1 + a' : ℕ) : ℤ) + (t : ℤ) * np := by
          rw [← hk]
          exact ht
        exact col_distinct hnp (by positivity) h12 hv heq
      rw [transformGo_get_ne std np tot hnp ps (i0 + 1) _ k hne]
      exact transformParam_get_log std np tot hnp i0 p d k e hamp hk hktot hklen
    | succ a' =>
      have hcol : ¬ ∃ t : ℕ, (k : ℤ) = (i0 : ℤ) + t * np ∧ (k : ℤ) < tot := by
        rintro ⟨t, ht, htot⟩
        have hv : ((i0 + (a' + 1) : ℕ) : ℤ) < np := by
          have ha2 : a' < ps.length := by simpa using ha
          push_cast at hbound ⊢
          omega
        have h12 : (i0 : ℤ) < ((i0 + (a' + 1) : ℕ) : ℤ) := by push_cast; omega
        have heq : (i0 : ℤ) + (t : ℤ) * np = ((i0 + (a' + 1) : ℕ) : ℤ) + (e : ℤ) * np := by
          rw [← ht]
          exact hk
        exact col_distinct hnp (by positivity) h12 hv heq
      have ha2 : a' < ps.length := by simpa using ha
      have hval := ih (i0 + 1) (transformParam std np tot i0 p d) a' ha2 e k
        (by push_cast at hbound ⊢; omega)
        (by simpa using hamp)
        (by push_cast at hk ⊢; omega) hktot
        (by rw [transformParam_length]; exact hklen)
      have hgd : (transformParam std np tot i0 p d).getD k 0 = d.getD k 0 := by
        rw [List.getD_eq_getElem?_getD, List.getD_eq_getElem?_getD,
          transformParam_get_ne std np tot hnp i0 p d k hcol]
      rw [hval, hgd]
      congr 1

/-- Claim C5: for a parameter whose amplification pair is not `(0,0)`,
the transform maps each of that parameter's decoded values `v` to
`10^(f1·v/Range) · f2` (first conjunct, stated at the event-major matrix
slot `e*NumParameters + i`); and with `f2 = 0` (and `f1 > 0`) the
per-parameter transform behaves exactly as with `f2 = 1` (second
conjunct). -/
theorem C5_log_transform_formula (std : Stdlib) (m : Metadata) (data : List ℚ)
    (i e : ℕ) (hi : i < m.Parameters.length)
    (hplen : (m.Parameters.length : ℤ) = m.NumParameters)
    (he : (e : ℤ) < m.NumEvents)
    (hdata : (data.length : ℤ) = m.NumParameters * m.NumEvents)
    (hamp : (m.Parameters.get ⟨i, hi⟩).AmplificationType ≠ (0, 0)) :
    ((applyTransform std m data)[e * m.NumParameters.toNat + i]? =
      some (std.pow10 ((m.Parameters.get ⟨i, hi⟩).AmplificationType.1 *
          data.getD (e * m.NumParameters.toNat + i) 0 /
          ((m.Parameters.get ⟨i, hi⟩).Range : ℚ)) *
        (if (m.Parameters.get ⟨i, hi⟩).AmplificationType.2 = 0 then 1
         else (m.Parameters.get ⟨i, hi⟩).AmplificationType.2))) ∧
    (∀ (w x : ℤ) (j : ℕ) (q : Parameter) (d : List ℚ),
      q.AmplificationType.2 = 0 → 0 < q.AmplificationType.1 →
      transformParam std w x j q d =
        transformParam std w x j
          {q with AmplificationType := (q.AmplificationType.1, 1)} d) := by
  constructor
  · have hnp : 1 ≤ m.NumParameters := by omega
    have hnp0 : ((m.NumParameters.toNat : ℕ) : ℤ) = m.NumParameters :=
      Int.toNat_of_nonneg (by omega)
    have hkz : ((e * m.NumParameters.toNat + i : ℕ) : ℤ) =
        ((0 + i : ℕ) : ℤ) + e * m.NumParameters := by
      push_cast [hnp0]
      ring
    have hke : ((e * m.NumParameters.toNat + i : ℕ) : ℤ) =
        (i : ℤ) + e * m.NumParameters := by
      push_cast [hnp0]
      ring
    have hktot : ((e * m.NumParameters.toNat + i : ℕ) : ℤ) <
        m.NumParameters * m.NumEvents := by
      have h1 : (i : ℤ) < m.NumParameters := by omega
      have h2 : ((e : ℤ) + 1) * m.NumParameters ≤ m.NumEvents * m.NumParameters :=
        mul_le_mul_of_nonneg_right (by omega) (by omega)
      rw [hke]
      nlinarith
    have hklen : e * m.NumParameters.toNat + i < data.length := by omega
    have := transformGo_get_log std m.NumParameters (m.NumParameters * m.NumEvents)
      hnp m.Parameters 0 data i hi e (e * m.NumParameters.toNat + i)
      (by push_cast; omega) hamp hkz hktot hklen
    rw [applyTransform]
    exact this
  · intro w x j q d h2 h1
    have hne : ¬ (q.AmplificationType.1 = 0 ∧ q.AmplificationType.2 = 0) := by
      rintro ⟨ha, -⟩
      rw [ha] at h1
      exact lt_irrefl 0 h1
    have hne2 : ¬ (({q with AmplificationType := (q.AmplificationType.1, 1)} :
        Parameter).AmplificationType.1 = 0 ∧
        ({q with AmplificationType := (q.AmplificationType.1, 1)} :
        Parameter).AmplificationType.2 = 0) := by
      rintro ⟨-, hb⟩
      simp at hb
    rw [transformParam, transformParam, if_neg hne, if_neg hne2]
    simp [h2]

/-- Witness for C5: one log-amplified parameter `(f1,f2) = (4,1)`,
`Range = 1024`, one event with raw value 512; and the `f2 = 0` leniency
at `(f1,f2) = (3,0)`. -/
theorem C5_log_transform_witness :
    ((applyTransform stdDummy { initMetadata '/' with NumParameters := 1, NumEvents := 1, Parameters := [{ zeroParameter with AmplificationType := (4, 1), Range := 1024 }] } [512])[0]? =
      some (stdDummy.pow10 ((4 : ℚ) * 512 / 1024) * 1)) ∧
    (transformParam stdDummy 2 4 0 { zeroParameter with AmplificationType := (3, 0), Range := 10 } [7, 8] =
      transformParam stdDummy 2 4 0 { zeroParameter with AmplificationType := (3, 1), Range := 10 } [7, 8]) := by
  have h := C5_log_transform_formula stdDummy { initMetadata '/' with NumParameters := 1, NumEvents := 1, Parameters := [{ zeroParameter with AmplificationType := (4, 1), Range := 1024 }] } [512] 0 0
    (by decide) (by decide) (by decide) (by decide) (by decide)
  exact ⟨h.1, h.2 2 4 0 { zeroParameter with AmplificationType := (3, 0), Range := 10 }
    [7, 8] (by decide) (by decide)⟩

/-! ## C8: integer DATA decode layout -/

theorem col_distinct_nat {n u v e t : ℕ} (hn : 1 ≤ n) (h12 : u < v) (hv : v < n)
    (heq : u + e * n = v + t * n) : False := by
  have hz : (u : ℤ) + (e : ℤ) * n = (v : ℤ) + (t : ℤ) * n := by exact_mod_cast heq
  exact col_distinct (by exact_mod_cast hn) (by positivity) (by exact_mod_cast h12)
    (by exact_mod_cast hv) hz

theorem colWrite_length (buf : List ℕ) (np eventBytes w off i : ℕ) :
    ∀ (ne : ℕ) (data : List ℚ),
      (colWrite buf np eventBytes w off i ne data).length = data.length := by
  intro ne
  induction ne with
  | zero => intro data; rfl
  | succ m ih => intro data; rw [colWrite, List.length_set, ih]

theorem colWrite_get_ne (buf : List ℕ) (np eventBytes w off i : ℕ) :
    ∀ (ne : ℕ) (data : List ℚ) (k : ℕ), (∀ j, j < ne → k ≠ i + j * np) →
      (colWrite buf np eventBytes w off i ne data)[k]? = data[k]? := by
  intro ne
  induction ne with
  | zero => intro data k _; rfl
  | succ m ih =>
    intro data k h
    rw [colWrite, List.getElem?_set_ne (fun he => h m (by omega) he.symm),
      ih data k fun j hj => h j (by omega)]

theorem colWrite_get_eq (buf : List ℕ) (np eventBytes w off i : ℕ) (hnp : 1 ≤ np) :
    ∀ (ne : ℕ) (data : List ℚ) (e k : ℕ), e < ne → k = i + e * np →
      k < data.length →
      (colWrite buf np eventBytes w off i ne data)[k]? =
        some ((leVal ((buf.drop (off + e * eventBytes)).take w) : ℚ)) := by
  intro ne
  induction ne with
  | zero => intro data e k he _ _; omega
  | succ m ih =>
    intro data e k he hk hklen
    rw [colWrite]
    by_cases hem : e = m
    · subst hem
      rw [hk, List.getElem?_set_self (by rw [colWrite_length]; omega)]
    · have hne : k ≠ i + m * np := by
        intro hcon
        have : e * np = m * np := by omega
        have : e = m := Nat.eq_of_mul_eq_mul_right (by omega) this
        exact hem this
      rw [List.getElem?_set_ne (fun he2 => hne he2.symm),
        ih data e k (by omega) hk hklen]

theorem intWalk_total (buf : List ℕ) (np ne eventBytes : ℕ) :
    ∀ (ws : List ℕ) (i0 off : ℕ) (data : List ℚ),
      (∀ w ∈ ws, w = 1 ∨ w = 2 ∨ w = 4 ∨ w = 8) →
      ∃ d', intWalk buf np ne eventBytes ws i0 off data = .ret d' := by
  intro ws
  induction ws with
  | nil => intro i0 off data _; exact ⟨data, rfl⟩
  | cons w ws ih =>
    intro i0 off data h
    rw [intWalk, if_pos (h w (List.mem_cons_self w ws))]
    exact ih (i0 + 1) (off + w) _ fun q hq => h q (List.mem_cons_of_mem w hq)

theorem intWalk_length (buf : List ℕ) (np ne eventBytes : ℕ) :
    ∀ (ws : List ℕ) (i0 off : ℕ) (data d' : List ℚ),
      intWalk buf np ne eventBytes ws i0 off data = .ret d' →
      d'.length = data.length := by
  intro ws
  induction ws with
  | nil =>
    intro i0 off data d' h
    cases h
    rfl
  | cons w ws ih =>
    intro i0 off data d' h
    rw [intWalk] at h
    split at h
    · rw [ih _ _ _ _ h, colWrite_length]
    · cases h

theorem intWalk_get_ne (buf : List ℕ) (np ne eventBytes : ℕ) :
    ∀ (ws : List ℕ) (i0 off : ℕ) (data d' : List ℚ) (k : ℕ),
      intWalk buf np ne eventBytes ws i0 off data = .ret d' →
      (∀ a, a < ws.length → ∀ j, j < ne → k ≠ (i0 + a) + j * np) →
      d'[k]? = data[k]? := by
  intro ws
  induction ws with
  | nil =>
    intro i0 off data d' k h _
    cases h
    rfl
  | cons w ws ih =>
    intro i0 off data d' k h hcols
    rw [intWalk] at h
    split at h
    · rw [ih (i0 + 1) (off + w) _ d' k h ?_,
        colWrite_get_ne buf np eventBytes w off i0 ne data k ?_]
      · intro j hj
        have := hcols 0 (by simp) j hj
        simpa using this
      · intro a ha j hj
        have := hcols (1 + a) (by simp only [List.length_cons]; omega) j hj
        intro hcon
        apply this
        rw [hcon]
        congr 1
        omega
    · cases h

theorem intWalk_get_eq (buf : List ℕ) (np ne eventBytes : ℕ) (hnp : 1 ≤ np) :
    ∀ (ws : List ℕ) (i0 off : ℕ) (data d' : List ℚ) (a : ℕ) (ha : a < ws.length)
      (e k : ℕ),
      intWalk buf np ne eventBytes ws i0 off data = .ret d' →
      i0 + ws.length ≤ np → e < ne → k = (i0 + a) + e * np → k < data.length →
      d'[k]? = some ((leVal ((buf.drop ((off + (ws.take a).sum) + e * eventBytes)).take
        (ws.get ⟨a, ha⟩)) : ℚ)) := by
  intro ws
  induction ws with
  | nil =>
    intro i0 off data d' a ha
    exact absurd ha (by simp)
  | cons w ws ih =>
    intro i0 off data d' a ha e k h hbound he hk hklen
    simp only [List.length_cons] at hbound
    rw [intWalk] at h
    split at h
    · cases a with
      | zero =>
        rw [intWalk_get_ne buf np ne eventBytes ws (i0 + 1) (off + w) _ d' k h ?_]
        · simp only [List.take_zero, List.sum_nil, Nat.add_zero, List.get]
          exact colWrite_get_eq buf np eventBytes w off i0 hnp ne data e k he
            (by omega) hklen
        · intro a' ha' j hj hcon
          exact col_distinct_nat hnp (u := i0) (v := i0 + 1 + a') (e := e) (t := j)
            (by omega) (by omega) (by omega)
      | succ b =>
        have hb : b < ws.length := by simpa using ha
        have hih := ih (i0 + 1) (off + w) _ d' b hb e k h (by omega) he (by omega)
          (by rw [colWrite_length]; exact hklen)
        rw [hih]
        have h1 : ((w :: ws).get ⟨b + 1, ha⟩) = ws.get ⟨b, hb⟩ := rfl
        have h2 : off + ((w :: ws).take (b + 1)).sum = off + w + (ws.take b).sum := by
          simp only [List.take_succ_cons, List.sum_cons]
          omega
        rw [h1, h2]
    · cases h

/-- The width-collection loop on a parameter list whose bit widths are
all in {8,16,32,64}, iterated exactly the list's length: it succeeds and
produces the per-parameter bit and byte widths and the record length. -/
theorem buildParamWidths_ok :
    ∀ (ps : List Parameter),
      (∀ q ∈ ps, q.BitLength = 8 ∨ q.BitLength = 16 ∨ q.BitLength = 32 ∨
        q.BitLength = 64) →
      buildParamWidths ps ps.length =
        .ret (.ok (ps.map (fun q => q.BitLength.toNat), ps.map byteWidth,
          (ps.map byteWidth).sum)) := by
  intro ps
  induction ps with
  | nil => intro _; rfl
  | cons p ps ih =>
    intro h
    have hp := h p (List.mem_cons_self p ps)
    rw [List.length_cons, buildParamWidths,
      if_pos (by rcases hp with h8 | h8 | h8 | h8 <;> rw [h8] <;> norm_num),
      ih fun q hq => h q (List.mem_cons_of_mem p hq)]
    rfl

/-- Claim C8: a successful integer-type decode is event-major: the value
stored (before the amplification transform) at matrix index
`e*NumParameters + p` is the fixed-width unsigned little-endian integer
read at byte offset `e*eventBytes + (sum of byte widths of the parameters
before p)` of the DATA buffer, widened to the matrix's numeric type. -/
theorem C8_int_decode_event_major (r : List ℕ) (m : Metadata) (data : List ℚ)
    (e p : ℕ) (hp : p < m.Parameters.length)
    (hbo : m.ByteOrder = "LittleEndian")
    (hplen : (m.Parameters.length : ℤ) = m.NumParameters)
    (hw : ∀ q ∈ m.Parameters, q.BitLength = 8 ∨ q.BitLength = 16 ∨
      q.BitLength = 32 ∨ q.BitLength = 64)
    (he : (e : ℤ) < m.NumEvents)
    (hdlen : (data.length : ℤ) = m.NumParameters * m.NumEvents)
    (hr : m.NumEvents.toNat * eventBytesOf m ≤ r.length) :
    intRawMatrixAt (decodeIntRaw r m data) (e * m.NumParameters.toNat + p) =
      some ((leVal (((r.take (m.NumEvents.toNat * eventBytesOf m)).drop
        (e * eventBytesOf m + paramOffset m p)).take
        (byteWidth (m.Parameters.get ⟨p, hp⟩))) : ℚ)) := by
  simp only [eventBytesOf, paramOffset] at hr ⊢
  have hnp : 1 ≤ m.NumParameters := by omega
  have hnpN : 1 ≤ m.NumParameters.toNat := by omega
  have hNP : ((m.NumParameters.toNat : ℕ) : ℤ) = m.NumParameters :=
    Int.toNat_of_nonneg (by omega)
  have hNE : ((m.NumEvents.toNat : ℕ) : ℤ) = m.NumEvents :=
    Int.toNat_of_nonneg (by omega)
  have hlenNP : m.NumParameters.toNat = m.Parameters.length := by omega
  have heN : e < m.NumEvents.toNat := by omega
  have hwB : ∀ w ∈ m.Parameters.map byteWidth, w = 1 ∨ w = 2 ∨ w = 4 ∨ w = 8 := by
    intro w hwm
    obtain ⟨q, hq, rfl⟩ := List.mem_map.mp hwm
    rcases hw q hq with h8 | h8 | h8 | h8 <;> rw [byteWidth, h8] <;> decide
  have hEB1 : 1 ≤ (m.Parameters.map byteWidth).sum := by
    have hmem : byteWidth (m.Parameters.get ⟨p, hp⟩) ∈ m.Parameters.map byteWidth :=
      List.mem_map_of_mem byteWidth (m.Parameters.get_mem p hp)
    have hone : 1 ≤ byteWidth (m.Parameters.get ⟨p, hp⟩) := by
      rcases hwB _ hmem with h1 | h1 | h1 | h1 <;> omega
    calc 1 ≤ byteWidth (m.Parameters.get ⟨p, hp⟩) := hone
    _ ≤ (m.Parameters.map byteWidth).sum :=
      List.single_le_sum (fun x _ => Nat.zero_le x) _ hmem
  have hneed : m.NumEvents * (((m.Parameters.map byteWidth).sum : ℕ) : ℤ) =
      ((m.NumEvents.toNat * (m.Parameters.map byteWidth).sum : ℕ) : ℤ) := by
    push_cast
    rw [hNE]
  have hbw : buildParamWidths m.Parameters m.NumParameters.toNat =
      .ret (.ok (m.Parameters.map (fun q => q.BitLength.toNat),
        m.Parameters.map byteWidth, (m.Parameters.map byteWidth).sum)) := by
    rw [hlenNP]
    exact buildParamWidths_ok m.Parameters hw
  have hbufl : (r.take (m.NumEvents *
      (((m.Parameters.map byteWidth).sum : ℕ) : ℤ)).toNat).length =
      m.NumEvents.toNat * (m.Parameters.map byteWidth).sum := by
    rw [hneed, Int.toNat_natCast, List.length_take]
    omega
  obtain ⟨d2, hwalk⟩ := intWalk_total
    (r.take (m.NumEvents * (((m.Parameters.map byteWidth).sum : ℕ) : ℤ)).toNat)
    m.NumParameters.toNat m.NumEvents.toNat ((m.Parameters.map byteWidth).sum)
    (m.Parameters.map byteWidth) 0 0 data hwB
  have hraw : decodeIntRaw r m data = .ret (d2, none, true) := by
    rw [decodeIntRaw, if_neg (by rw [hbo]; simp), if_neg (by omega), hbw]
    simp only
    rw [if_neg (by rw [hneed]; exact not_lt.mpr (Int.natCast_nonneg _))]
    rw [if_neg (by rw [hneed]; exact not_lt.mpr (by exact_mod_cast hr))]
    rw [if_neg (by rw [hbufl]; intro hcon; nlinarith)]
    rw [hwalk]
  rw [hraw]
  simp only [intRawMatrixAt]
  have hdl : data.length = m.NumParameters.toNat * m.NumEvents.toNat := by
    have hc : ((m.NumParameters.toNat * m.NumEvents.toNat : ℕ) : ℤ) =
        m.NumParameters * m.NumEvents := by push_cast [hNP, hNE]; ring
    omega
  have hklen : e * m.NumParameters.toNat + p < data.length := by
    have hexp : (e + 1) * m.NumParameters.toNat = e * m.NumParameters.toNat +
        m.NumParameters.toNat := by ring
    have hmul : (e + 1) * m.NumParameters.toNat ≤
        m.NumEvents.toNat * m.NumParameters.toNat :=
      Nat.mul_le_mul_right _ (by omega)
    have hcomm : m.NumEvents.toNat * m.NumParameters.toNat =
        m.NumParameters.toNat * m.NumEvents.toNat := Nat.mul_comm _ _
    omega
  have hval := intWalk_get_eq
    (r.take (m.NumEvents * (((m.Parameters.map byteWidth).sum : ℕ) : ℤ)).toNat)
    m.NumParameters.toNat m.NumEvents.toNat ((m.Parameters.map byteWidth).sum)
    hnpN (m.Parameters.map byteWidth) 0 0 data d2 p
    (by rw [List.length_map]; exact hp) e (e * m.NumParameters.toNat + p)
    hwalk (by rw [List.length_map]; omega) heN (by omega) hklen
  rw [hval]
  have hget : (m.Parameters.map byteWidth).get
      ⟨p, by rw [List.length_map]; exact hp⟩ =
      byteWidth (m.Parameters.get ⟨p, hp⟩) := List.get_map byteWidth
  have hsum : ((m.Parameters.map byteWidth).take p).sum =
      ((m.Parameters.take p).map byteWidth).sum := by
    rw [List.map_take]
  have hoff : (0 + ((m.Parameters.map byteWidth).take p).sum) +
      e * (m.Parameters.map byteWidth).sum =
      e * (m.Parameters.map byteWidth).sum +
      ((m.Parameters.take p).map byteWidth).sum := by
    rw [hsum]
    omega
  rw [hget, hoff, hneed, Int.toNat_natCast]

/-- Witness for C8: two parameters of widths 8 and 16 bits, two events,
buffer `[1, 2,3, 4, 5,6]`; event 1, parameter 1 reads the little-endian
16-bit value 5 + 256·6 = 1541 at offset `1*3 + 1`. -/
theorem C8_int_decode_witness :
    intRawMatrixAt (decodeIntRaw [1, 2, 3, 4, 5, 6] c8meta (List.replicate 4 0)) 3 =
      some 1541 := by
  have h := C8_int_decode_event_major [1, 2, 3, 4, 5, 6] c8meta (List.replicate 4 0)
    1 1 (by decide) (by decide) (by decide) (by decide) (by decide) (by decide)
    (by decide)
  exact h

/-! ## C10: DecodeMetadata never fills its memoization cache -/

/-- Every normal return of the `DecodeMetadata` body leaves the decoder's
`metadata` field exactly as it was: only the `header` field is ever
assigned. -/
theorem decodeMetadataBody_metadata (std : Stdlib) (dec dec' : Decoder)
    (x : Option Metadata × Option FcsError)
    (h : decodeMetadataBody std dec = .ret (dec', x)) :
    dec'.metadata = dec.metadata := by
  rw [decodeMetadataBody] at h
  split at h
  · rw [GoResult.ret.injEq, Prod.mk.injEq] at h
    obtain ⟨h1, -⟩ := h
    rw [← h1]
  · dsimp only at h
    split at h
    · rw [GoResult.ret.injEq, Prod.mk.injEq] at h
      obtain ⟨h1, -⟩ := h
      rw [← h1]
    · split at h
      · exact GoResult.noConfusion h
      · rw [GoResult.ret.injEq, Prod.mk.injEq] at h
        obtain ⟨h1, -⟩ := h
        rw [← h1]
      · rw [GoResult.ret.injEq, Prod.mk.injEq] at h
        obtain ⟨h1, -⟩ := h
        rw [← h1]
      · rw [GoResult.ret.injEq, Prod.mk.injEq] at h
        obtain ⟨h1, -⟩ := h
        rw [← h1]

/-- Claim C10 (implicit): after a successful `DecodeMetadata` on a fresh
decoder, the decoder's cached `metadata` field is still nil (nothing ever
assigns it), so the memoization guard cannot fire and a second
`DecodeMetadata` call runs the full body again — re-parsing a header from
the stream's current position instead of returning the first result. -/
theorem C10_metadata_never_cached (std : Stdlib) (s : List Char) (dec' : Decoder)
    (m : Metadata)
    (h : decodeMetadata std (newDecoder s) = .ret (dec', (some m, none))) :
    dec'.metadata = none ∧ decodeMetadata std dec' = decodeMetadataBody std dec' := by
  have h0 : decodeMetadata std (newDecoder s) = decodeMetadataBody std (newDecoder s) :=
    rfl
  rw [h0] at h
  have h1 : dec'.metadata = none :=
    decodeMetadataBody_metadata std (newDecoder s) dec' _ h
  refine ⟨h1, ?_⟩
  rw [decodeMetadata, h1]

/-- Witness for C10 on the concrete stream `c10stream`. -/
theorem C10_metadata_never_cached_witness :
    c10dec.metadata = none ∧
    decodeMetadata stdDummy c10dec = decodeMetadataBody stdDummy c10dec :=
  C10_metadata_never_cached stdDummy c10stream c10dec c10meta (by decide)

end Fcs
